import Mathlib

/-!
# go-micro: feature bootstrapper and generic repositories

A shallow embedding of `micro/runtime.go` (`App.Init`, `configureFeature`),
`adapters/setup.go` (`prepareMultiTenancy`, `setupDatabase`), `micro/db_repo.go`
(both repository flavours and the `_xxx` helpers behind them), `handlers/rest.go`
(`GetEntityList`, `SearchEntity`) and `util/ids/ids.go` (`NewId`), together with
the properties of the specification that concern them.

Conventions of the embedding

* A Go function with side effects becomes a function on an explicit state.
  The bootstrapper threads a `BootState` (the `bootstrap` map and the trace of
  effects issued so far); repository operations thread a `World` (memory, the
  allocator and the log of calls issued so far).
* A Go panic is an explicit outcome (`Run.panic`, `Outcome.panicked`).
* Unbounded recursion is bounded by a fuel argument that counts the depth of
  the call stack; `none` means the fuel did not suffice.
* A Go `int` is an integer wrapped to 64 bits (`wrapInt`).
-/

namespace Micro

/-! ## Part 1. `micro/runtime.go`: the feature bootstrapper -/

/-- A reference to a `Feature` value.  In Go `DependsOn` is a slice `[]Feature`;
a slice may alias its own backing array, so the structure it describes is a
graph, which need not be a tree.  The graph is given by a table `G` from
references to features. -/
abbrev FeatureRef := Nat

/-- The Go struct `Feature`, restricted to the fields that `configureFeature` reads.
`MigrationFS` and `Configure` are `none` for the Go value `nil`. -/
structure Feature where
  Name : String
  DependsOn : List FeatureRef
  MigrationFS : Option Nat
  Configure : Option Nat
  deriving DecidableEq

/-- The Go interface `TenantLoader`, given by the list that `GetTenant()` yields. -/
structure TenantLoader where
  tenants : List String
  deriving DecidableEq

/-- The method `GetTenant()` of a `TenantLoader`. -/
def TenantLoader.GetTenant (l : TenantLoader) : List String := l.tenants

/-- Modelled from the spec: `NewFixedTenantLoader`, whose source is not part of the
repository files at hand.  The spec (4.1) describes the loader as yielding an ordered
sequence of ids that is fixed at construction. -/
def NewFixedTenantLoader (tenants : List String) : TenantLoader := { tenants := tenants }

/-- The part of `micro.Env` that bootstrapping reads.  `TenantLoader` is `none` for a nil
interface; `DataSources` is the Go map from tenant id to `DataSource`, as an association
list (`nil` and the empty map are both `[]`). -/
structure Env (DS : Type) where
  TenantLoader : Option TenantLoader
  DataSources : List (String × DS)
  MultiTenant : Bool

/-- The part of `micro.App` that bootstrapping reads. -/
structure App (DS : Type) where
  Env : Env DS

/-- The Go constant `DefaultMigrationsTable` of `micro/db.go`. -/
def DefaultMigrationsTable : String := "_db_version"

/-- The observable effects of bootstrapping.  `Migrate feat ds fs location table` is the
call `ds.Migrate(fs, location, table)` issued on behalf of feature `feat`;
`Configure feat` is the call `feat.Configure(app)`. -/
inductive Effect (DS : Type) where
  | Migrate (feat : FeatureRef) (ds : DS) (fs : Nat) (location : String) (table : String)
  | Configure (feat : FeatureRef)
  deriving DecidableEq

/-- The feature on whose behalf an effect was issued. -/
def Effect.feat {DS : Type} : Effect DS → FeatureRef
  | .Migrate feat _ _ _ _ => feat
  | .Configure feat => feat

/-- Recognises the call of the configuration callback of feature `i`. -/
def Effect.isConfigure {DS : Type} (i : FeatureRef) : Effect DS → Bool
  | .Configure feat => feat == i
  | .Migrate _ _ _ _ _ => false

/-- Recognises the calls of `Migrate` issued for feature `i`. -/
def Effect.isMigrate {DS : Type} (i : FeatureRef) : Effect DS → Bool
  | .Migrate feat _ _ _ _ => feat == i
  | .Configure _ => false

/-- The state threaded through bootstrapping: the keys of the local map `bootstrap`
and the effects issued so far, oldest first. -/
structure BootState (DS : Type) where
  bootstrap : List String
  trace : List (Effect DS)
  deriving DecidableEq

/-- How a call ends: it returns, or it panics (the state reached is kept). -/
inductive Run (DS : Type) where
  | done (s : BootState DS)
  | panic (s : BootState DS)
  deriving DecidableEq

/-- The body of the loop `for _, tenant := range app.Env.TenantLoader.GetTenant()` of
`configureFeature` (runtime.go, lines 100 to 114), run for the tenants given.
`DataSources[tenant]` is `nil` for a key that the map lacks, and calling `Migrate` on it
panics. -/
def migrate {DS : Type} (DefaultTenantId : String) (app : App DS) (feat : FeatureRef)
    (fs : Nat) : List String → BootState DS → Run DS
  | [], s => Run.done s
  | tenant :: rest, s =>
    match app.Env.DataSources.lookup tenant with
    | none => Run.panic s
    | some ds =>
      let table := DefaultMigrationsTable
      if app.Env.MultiTenant then
        if tenant = DefaultTenantId then
          migrate DefaultTenantId app feat fs rest
            { s with trace := s.trace ++ [Effect.Migrate feat ds fs "db/shared" table] }
        else
          migrate DefaultTenantId app feat fs rest
            { s with trace := s.trace ++ [Effect.Migrate feat ds fs "db/tenant" table] }
      else
        migrate DefaultTenantId app feat fs rest
          { s with trace := s.trace ++ [Effect.Migrate feat ds fs "db" table,
                                        Effect.Migrate feat ds fs "db" table] }

/-- A Go `for ... range` loop whose body may panic or run out of fuel. -/
def forEach {DS : Type} (body : FeatureRef → BootState DS → Option (Run DS)) :
    List FeatureRef → BootState DS → Option (Run DS)
  | [], s => some (Run.done s)
  | x :: rest, s =>
    match body x s with
    | none => none
    | some (Run.panic s1) => some (Run.panic s1)
    | some (Run.done s1) => forEach body rest s1

/-- The Go function `configureFeature` (runtime.go, lines 87 to 121).  The first
argument bounds the depth of the recursion.  Calling `GetTenant` on a nil loader
panics. -/
def configureFeature {DS : Type} (DefaultTenantId : String) (G : FeatureRef → Feature)
    (app : App DS) : Nat → FeatureRef → BootState DS → Option (Run DS)
  | 0, _, _ => none
  | fuel + 1, feat, s =>
    if (G feat).Name ∈ s.bootstrap then some (Run.done s)
    else
      match forEach (configureFeature DefaultTenantId G app fuel) (G feat).DependsOn s with
      | none => none
      | some (Run.panic s1) => some (Run.panic s1)
      | some (Run.done s1) =>
        let migrated :=
          match (G feat).MigrationFS with
          | none => Run.done s1
          | some fs =>
            match app.Env.TenantLoader with
            | none => Run.panic s1
            | some loader => migrate DefaultTenantId app feat fs loader.GetTenant s1
        match migrated with
        | Run.panic s2 => some (Run.panic s2)
        | Run.done s2 =>
          let s3 : BootState DS :=
            match (G feat).Configure with
            | none => s2
            | some _ => { s2 with trace := s2.trace ++ [Effect.Configure feat] }
          some (Run.done { s3 with bootstrap := s3.bootstrap.insert (G feat).Name })

/-- The loop that ends `App.Init` (runtime.go, lines 79 to 82); the registrations before
it do not touch the features. -/
def App.Init {DS : Type} (DefaultTenantId : String) (G : FeatureRef → Feature)
    (app : App DS) (fuel : Nat) (features : List FeatureRef) : Option (Run DS) :=
  forEach (configureFeature DefaultTenantId G app fuel) features { bootstrap := [], trace := [] }

/-! ### Notions used to state the properties of the bootstrapper -/

/-- The feature `j` is listed in the `DependsOn` of the feature `i`. -/
def Dep (G : FeatureRef → Feature) (i j : FeatureRef) : Prop := j ∈ (G i).DependsOn

/-- The feature `j` is `i` or is reached from `i` through `DependsOn`. -/
def Reaches (G : FeatureRef → Feature) : FeatureRef → FeatureRef → Prop :=
  Relation.ReflTransGen (Dep G)

/-- The feature `j` is a dependency of `i`, directly or through other features. -/
def DependsOnTrans (G : FeatureRef → Feature) : FeatureRef → FeatureRef → Prop :=
  Relation.TransGen (Dep G)

/-- The feature `i` is an entry of the requested list or is reached from one. -/
def Reachable (G : FeatureRef → Feature) (features : List FeatureRef) (i : FeatureRef) : Prop :=
  ∃ r ∈ features, Reaches G r i

/-- The `DependsOn` graph below `i` is acyclic: every chain of dependencies that starts at
`i` ends.  (A feature value holds finitely many features, so this is the absence of a
cycle.) -/
def Acyclic (G : FeatureRef → Feature) (i : FeatureRef) : Prop :=
  Acc (fun j k => Dep G k j) i

/-- The tenant to `DataSource` mapping covers the tenants of the loader, as far as the
feature `f` needs it: `f` declares no migration source, or every tenant that the loader
yields has a `DataSource`. -/
def MigrateReady {DS : Type} (app : App DS) (f : Feature) : Prop :=
  f.MigrationFS = none ∨
    ∃ loader, app.Env.TenantLoader = some loader ∧
      ∀ t ∈ loader.GetTenant, (app.Env.DataSources.lookup t).isSome

/-- The `Migrate` calls that the migration loop issues for the given tenants when no
tenant lacks a `DataSource`. -/
def migrateEffects {DS : Type} (DefaultTenantId : String) (app : App DS) (feat : FeatureRef)
    (fs : Nat) : List String → List (Effect DS)
  | [] => []
  | tenant :: rest =>
    (match app.Env.DataSources.lookup tenant with
      | none => []
      | some ds =>
        if app.Env.MultiTenant then
          if tenant = DefaultTenantId then
            [Effect.Migrate feat ds fs "db/shared" DefaultMigrationsTable]
          else [Effect.Migrate feat ds fs "db/tenant" DefaultMigrationsTable]
        else [Effect.Migrate feat ds fs "db" DefaultMigrationsTable,
              Effect.Migrate feat ds fs "db" DefaultMigrationsTable])
      ++ migrateEffects DefaultTenantId app feat fs rest

/-- The effects of configuring one feature whose dependencies are configured already:
its migrations, then its callback. -/
def featureEffects {DS : Type} (DefaultTenantId : String) (G : FeatureRef → Feature)
    (app : App DS) (i : FeatureRef) : List (Effect DS) :=
  (match (G i).MigrationFS with
    | none => []
    | some fs =>
      match app.Env.TenantLoader with
      | none => []
      | some loader => migrateEffects DefaultTenantId app i fs loader.GetTenant)
  ++ (match (G i).Configure with
    | none => []
    | some _ => [Effect.Configure i])

/-- The trace of configuring the listed features one after the other, the head of the list
last. -/
def traceOf {DS : Type} (DefaultTenantId : String) (G : FeatureRef → Feature)
    (app : App DS) : List FeatureRef → List (Effect DS)
  | [] => []
  | i :: rest => traceOf DefaultTenantId G app rest ++ featureEffects DefaultTenantId G app i

/-- The list holds no feature twice and every feature in it comes after (further to the
tail than) none of its dependencies: the dependencies of the head are in the tail. -/
def Topo (G : FeatureRef → Feature) : List FeatureRef → Prop
  | [] => True
  | i :: rest => (∀ j, Dep G i j → j ∈ rest) ∧ i ∉ rest ∧ Topo G rest

/-- The invariant of bootstrapping: the features configured so far, latest first, are `ro`. -/
def BootInv {DS : Type} (DefaultTenantId : String) (G : FeatureRef → Feature) (app : App DS)
    (U : FeatureRef → Prop) (s : BootState DS) (ro : List FeatureRef) : Prop :=
  Topo G ro ∧ s.trace = traceOf DefaultTenantId G app ro ∧
    (∀ nm, nm ∈ s.bootstrap ↔ ∃ k ∈ ro, (G k).Name = nm) ∧ ∀ k ∈ ro, U k

/-- The call `body i` returns from every state that satisfies the invariant, in a state
that satisfies it, with `i` configured and nothing configured but features that `i`
reaches. -/
def Good {DS : Type} (DefaultTenantId : String) (G : FeatureRef → Feature) (app : App DS)
    (U : FeatureRef → Prop) (body : FeatureRef → BootState DS → Option (Run DS))
    (i : FeatureRef) : Prop :=
  ∀ s ro, BootInv DefaultTenantId G app U s ro →
    ∃ s1 ro1, body i s = some (Run.done s1) ∧ BootInv DefaultTenantId G app U s1 (ro1 ++ ro) ∧
      i ∈ ro1 ++ ro ∧ ∀ k ∈ ro1, Reaches G i k

/-! ### `adapters/setup.go`: how the environment of the bootstrapper is built -/

/-- The value that `NewGormAdapter(databaseUrl, tenant)` builds, represented by the
arguments of the call (the adapter itself is not among the source files). -/
structure GormAdapter where
  databaseUrl : String
  tenant : String
  deriving DecidableEq

/-- The constructor call `NewGormAdapter(databaseUrl, tenant)`. -/
def NewGormAdapter (databaseUrl : String) (tenant : String) : GormAdapter :=
  { databaseUrl := databaseUrl, tenant := tenant }

/-- The field of `micro.Cfg` that decides the tenancy mode. -/
structure Cfg where
  MultiTenant : Bool
  deriving DecidableEq

/-- The Go function `prepareMultiTenancy` (setup.go, lines 96 to 105).  `initialTenants` is
what `getInitialTenants()` reads from the process environment. -/
def prepareMultiTenancy (DefaultTenantId : String) (initialTenants : List String)
    (env : Env GormAdapter) (cfg : Cfg) : Env GormAdapter :=
  let tenantLoader :=
    if cfg.MultiTenant then NewFixedTenantLoader initialTenants
    else NewFixedTenantLoader [DefaultTenantId]
  { env with TenantLoader := some tenantLoader }

/-- The loop `for _, tenant := range tenants` of `setupDatabase` (setup.go, lines 129 to 139
and again 141 to 147): a tenant that has a `DataSource` already is skipped. -/
def linkTenants (databaseUrl : String) :
    List String → List (String × GormAdapter) → List (String × GormAdapter)
  | [], links => links
  | tenant :: rest, links =>
    if (links.lookup tenant).isSome then linkTenants databaseUrl rest links
    else linkTenants databaseUrl rest (links ++ [(tenant, NewGormAdapter databaseUrl tenant)])

/-- The Go function `setupDatabase` (setup.go, lines 107 to 150).  `databaseUrl` is what
`h.GetEnv(micro.DatabaseUrl)` reads from the process environment. -/
def setupDatabase (DefaultTenantId : String) (databaseUrl : String)
    (env : Env GormAdapter) (cfg : Cfg) : Env GormAdapter :=
  if databaseUrl = "" then env
  else
    let loader :=
      match env.TenantLoader with
      | none => NewFixedTenantLoader [DefaultTenantId]
      | some l => l
    let tenants := loader.GetTenant ++ [DefaultTenantId]
    let links :=
      if cfg.MultiTenant then linkTenants databaseUrl tenants []
      else linkTenants databaseUrl tenants []
    { env with TenantLoader := some loader, DataSources := links }

/-! ### Concrete inputs -/

/-- The example of the specification: `A` depends on `B` and `C`, which both depend on `D`. -/
def diamond : FeatureRef → Feature
  | 0 => { Name := "A", DependsOn := [1, 2], MigrationFS := none, Configure := some 10 }
  | 1 => { Name := "B", DependsOn := [3], MigrationFS := some 21, Configure := some 11 }
  | 2 => { Name := "C", DependsOn := [3], MigrationFS := none, Configure := none }
  | 3 => { Name := "D", DependsOn := [], MigrationFS := some 23, Configure := some 13 }
  | _ => { Name := "", DependsOn := [], MigrationFS := none, Configure := none }

/-- One feature `F` with a migration source and a configuration callback. -/
def migratingFeature : FeatureRef → Feature :=
  fun _ => { Name := "F", DependsOn := [], MigrationFS := some 1, Configure := some 2 }

/-- The application that `NewApp` builds for the given mode and initial tenants when a
database URL is configured. -/
def builtApp (DefaultTenantId : String) (multiTenant : Bool) (initialTenants : List String) :
    App GormAdapter :=
  let cfg : Cfg := { MultiTenant := multiTenant }
  let env : Env GormAdapter :=
    { TenantLoader := none, DataSources := [], MultiTenant := cfg.MultiTenant }
  { Env := setupDatabase DefaultTenantId "postgres://db"
      (prepareMultiTenancy DefaultTenantId initialTenants env cfg) cfg }

/-! ## Part 2. `micro/db_repo.go`: the generic repositories -/

/-- An address of a record of the entity type `T`. -/
abbrev Addr := Nat

/-- A Go pointer `*T`: `none` is `nil`. -/
abbrev Ptr := Option Addr

/-- The records in memory, by address. -/
abbrev Heap (T : Type) := Addr → T

/-- A Go `error` that is not nil.  `ResourceNotFound code` is what
`errors.ResourceNotFound(code)` builds; `failure` stands for any other error. -/
inductive Error where
  | ResourceNotFound (code : String)
  | failure (message : String)
  deriving DecidableEq

/-- The values that the repositories pass where Go has `any`: the nil interface, a string,
a slice of strings, a zero `T` passed by value, a `*T`, a `[]*T`, the address of a variable
that holds one of these, and any other value of the caller. -/
inductive GoValue where
  | nil
  | str (s : String)
  | strs (ss : List String)
  | zero
  | ptr (p : Ptr)
  | slice (ps : List Ptr)
  | addr (v : GoValue)
  | other (tag : Nat)
  deriving DecidableEq

/-- The Go struct `Query` of `micro/db.go`.  The field `Sort` is named `SortBy` here, `Sort`
being reserved. -/
structure Query where
  Model : GoValue := GoValue.nil
  Raw : String := ""
  W : String := ""
  SortBy : String := ""
  Args : List GoValue := []
  Select : String := ""
  Offset : Int := 0
  Limit : Int := 0
  deriving DecidableEq

/-- The calls of the interface `DataSource` that the repositories issue, with their
arguments. -/
inductive DBCall where
  | Save (target : GoValue)
  | Create (target : GoValue)
  | Delete (target : GoValue) (q : Query)
  | Exists (target : GoValue) (q : Query)
  | First (target : GoValue) (q : Query)
  | Find (target : GoValue) (q : Query)
  | Count (target : GoValue) (q : Query)
  | Execute (target : GoValue) (q : Query)
  | Patch (model : GoValue) (id : String) (data : List (String × GoValue))
  deriving DecidableEq

/-- What a repository operation does that can be observed: it invokes the pre-create hook
on a record, it invokes the `merger` of `Merge` on a record, or it calls the `DataSource`.
Each event carries the memory at the time of the call. -/
inductive Event (T : Type) where
  | PreCreate (e : Ptr) (mem : Heap T)
  | merger (target : Ptr) (mem : Heap T)
  | db (call : DBCall) (mem : Heap T)

/-- What a call of the `DataSource` gives back: the `int64` result, the `bool` result, the
`error`, the slice stored into a `[]*T` destination, and the memory as the call leaves it
(a record loaded by `First` is written to the address passed to it).  A method reads the
components that its Go signature has. -/
structure DBResult (T : Type) where
  n : Int
  ok : Bool
  err : Option Error
  rows : List Ptr
  mem : Heap T

/-- The Go interface `DataSource`: an arbitrary implementation, given by its answer to a
call in terms of the events so far and the memory. -/
structure DataSource (T : Type) where
  respond : List (Event T) → Heap T → DBCall → DBResult T

/-- The state threaded through a repository operation: memory, the next free address,
and the events so far, oldest first. -/
structure World (T : Type) where
  heap : Heap T
  next : Addr
  log : List (Event T)

/-- How a Go call ends: it returns a value, or it panics. -/
inductive Outcome (α : Type) where
  | returned (value : α)
  | panicked (reason : String)
  deriving DecidableEq

/-- A declaration such as `var model T` whose address is taken: a fresh address holding `v`. -/
def World.alloc {T : Type} (w : World T) (v : T) : Addr × World T :=
  (w.next, { heap := Function.update w.heap w.next v, next := w.next + 1, log := w.log })

/-- A call of a method of the `DataSource`: the call is logged and answered. -/
def DataSource.call {T : Type} (db : DataSource T) (c : DBCall) (w : World T) :
    DBResult T × World T :=
  let r := db.respond w.log w.heap c
  (r, { heap := r.mem, next := w.next, log := w.log ++ [Event.db c w.heap] })

/-- The Go struct `RepoHooks`: `PreCreate` is `none` for a nil function, and a function
acts on memory through the pointer it is given. -/
structure RepoHooks (T : Type) where
  PreCreate : Option (Ptr → Heap T → Heap T)

/-- The Go struct `entityRepoImpl`, the repository bound to the context of each call. -/
structure entityRepoImpl (T : Type) where
  hooks : RepoHooks T

/-- The Go struct `linkedEntityRepoImpl`, the repository bound to one `DataSource`. -/
structure linkedEntityRepoImpl (T : Type) where
  db : DataSource T
  hooks : RepoHooks T

/-- The part of `micro.Ctx` that the repositories read: the field `db`. -/
structure Ctx (T : Type) where
  db : DataSource T

/-- The Go function `NewRepoImpl` (db_repo.go, lines 81 to 87). -/
def NewRepoImpl {T : Type} (preCreate : Option (Ptr → Heap T → Heap T)) : entityRepoImpl T :=
  { hooks := { PreCreate := preCreate } }

/-- The Go function `NewLinkedEntityRepo` (db_repo.go, lines 89 to 96). -/
def NewLinkedEntityRepo {T : Type} (preCreate : Option (Ptr → Heap T → Heap T))
    (db : DataSource T) : linkedEntityRepoImpl T :=
  { db := db, hooks := { PreCreate := preCreate } }

/-- The statement `r.hooks.PreCreate(e)`: calling a nil function panics. -/
def RepoHooks.callPreCreate {T : Type} (hooks : RepoHooks T) (e : Ptr) (w : World T) :
    Outcome Unit × World T :=
  match hooks.PreCreate with
  | none => (Outcome.panicked "invalid memory address or nil pointer dereference", w)
  | some f =>
    (Outcome.returned (),
      { heap := f e w.heap, next := w.next, log := w.log ++ [Event.PreCreate e w.heap] })

/-- The loop `for _, e := range entities { r.hooks.PreCreate(e) }` of `CreateAll`. -/
def RepoHooks.preCreateEach {T : Type} (hooks : RepoHooks T) :
    List Ptr → World T → Outcome Unit × World T
  | [], w => (Outcome.returned (), w)
  | e :: rest, w =>
    match hooks.callPreCreate e w with
    | (Outcome.panicked reason, w1) => (Outcome.panicked reason, w1)
    | (Outcome.returned _, w1) => RepoHooks.preCreateEach hooks rest w1

/-! ### The helpers `_xxx` (db_repo.go, lines 291 to 412) -/

/-- The Go function `_createAll`. -/
def _createAll {T : Type} (db : DataSource T) (entities : List Ptr) (w : World T) :
    Outcome (Option Error) × World T :=
  let (r, w1) := db.call (DBCall.Create (GoValue.slice entities)) w
  (Outcome.returned r.err, w1)

/-- The Go function `_create`. -/
def _create {T : Type} (db : DataSource T) (record : Ptr) (w : World T) :
    Outcome (Option Error) × World T :=
  let (r, w1) := db.call (DBCall.Create (GoValue.addr (GoValue.ptr record))) w
  (Outcome.returned r.err, w1)

/-- The Go function `_update`. -/
def _update {T : Type} (db : DataSource T) (data : Ptr) (w : World T) :
    Outcome (Option Error) × World T :=
  let (r, w1) := db.call (DBCall.Save (GoValue.addr (GoValue.ptr data))) w
  (Outcome.returned r.err, w1)

/-- The Go function `_updateAll`. -/
def _updateAll {T : Type} (db : DataSource T) (data : List Ptr) (w : World T) :
    Outcome (Option Error) × World T :=
  let (r, w1) := db.call (DBCall.Save (GoValue.addr (GoValue.slice data))) w
  (Outcome.returned r.err, w1)

/-- The Go function `_deleteBy`. -/
def _deleteBy {T : Type} [Inhabited T] (db : DataSource T) (whereClause : String)
    (args : List GoValue) (w : World T) : Outcome (Option Error) × World T :=
  let (model, w1) := w.alloc default
  let (r, w2) := db.call
    (DBCall.Delete (GoValue.ptr (some model)) { W := whereClause, Args := args }) w1
  (Outcome.returned r.err, w2)

/-- The Go function `_deleteById`. -/
def _deleteById {T : Type} [Inhabited T] (db : DataSource T) (value : String) (w : World T) :
    Outcome (Option Error) × World T :=
  _deleteBy db "id=?" [GoValue.str value] w

/-- The Go function `_patch`. -/
def _patch {T : Type} (db : DataSource T) (id : String) (value : List (String × GoValue))
    (w : World T) : Outcome (Option Error) × World T :=
  let (r, w1) := db.call (DBCall.Patch GoValue.zero id value) w
  (Outcome.returned r.err, w1)

/-- The Go function `_firstBy`. -/
def _firstBy {T : Type} [Inhabited T] (db : DataSource T) (whereClause : String)
    (args : List GoValue) (w : World T) : Outcome (Ptr × Option Error) × World T :=
  let (model, w1) := w.alloc default
  let (r, w2) := db.call
    (DBCall.First (GoValue.ptr (some model)) { W := whereClause, Args := args }) w1
  if !r.ok || r.err != none then (Outcome.returned (none, r.err), w2)
  else (Outcome.returned (some model, r.err), w2)

/-- The Go function `_findById`. -/
def _findById {T : Type} [Inhabited T] (db : DataSource T) (id : String) (w : World T) :
    Outcome (Ptr × Option Error) × World T :=
  _firstBy db "id=?" [GoValue.str id] w

/-- The Go function `_merge`.  `beforeMerge := *loaded` dereferences `loaded` and panics
when it is nil; `beforeMerge` is a fresh variable, whose address is compared with
`loaded`. -/
def _merge {T : Type} [Inhabited T] (db : DataSource T) (id : String)
    (merger : Option (Ptr → Heap T → Heap T)) (w : World T) :
    Outcome (Ptr × Option Error) × World T :=
  match _findById db id w with
  | (Outcome.panicked reason, w1) => (Outcome.panicked reason, w1)
  | (Outcome.returned (loaded, err), w1) =>
    if err != none then
      (Outcome.returned (none, some (Error.ResourceNotFound "missing_entity")), w1)
    else
      match loaded with
      | none => (Outcome.panicked "invalid memory address or nil pointer dereference", w1)
      | some a =>
        let (beforeMerge, w2) := w1.alloc (w1.heap a)
        match merger with
        | none => (Outcome.panicked "invalid memory address or nil pointer dereference", w2)
        | some f =>
          let w3 : World T :=
            { heap := f loaded w2.heap, next := w2.next,
              log := w2.log ++ [Event.merger loaded w2.heap] }
          if some beforeMerge != loaded then
            let (r, w4) := db.call (DBCall.Save (GoValue.ptr loaded)) w3
            (Outcome.returned (loaded, r.err), w4)
          else (Outcome.returned (loaded, err), w3)

/-- The Go function `_existsBy`. -/
def _existsBy {T : Type} (db : DataSource T) (whereClause : String) (args : List GoValue)
    (w : World T) : Outcome (Bool × Option Error) × World T :=
  let (r, w1) := db.call (DBCall.Exists GoValue.zero { W := whereClause, Args := args }) w
  (Outcome.returned (r.ok, r.err), w1)

/-- The Go function `_findAll`. -/
def _findAll {T : Type} (db : DataSource T) (w : World T) :
    Outcome (List Ptr × Option Error) × World T :=
  let (r, w1) := db.call (DBCall.Find (GoValue.addr (GoValue.slice [])) {}) w
  (Outcome.returned (r.rows, r.err), w1)

/-- The Go function `_findAllSorted`. -/
def _findAllSorted {T : Type} (db : DataSource T) (orderBy : String) (w : World T) :
    Outcome (List Ptr × Option Error) × World T :=
  let (r, w1) := db.call (DBCall.Find (GoValue.addr (GoValue.slice [])) { SortBy := orderBy }) w
  (Outcome.returned (r.rows, r.err), w1)

/-- The Go function `_findByInto`. -/
def _findByInto {T : Type} (db : DataSource T) (target : GoValue) (whereClause : String)
    (args : List GoValue) (w : World T) : Outcome (Option Error) × World T :=
  let (r, w1) := db.call
    (DBCall.Find (GoValue.addr target)
      { W := whereClause, Args := args, Model := GoValue.slice [] }) w
  (Outcome.returned r.err, w1)

/-- The Go function `_findBy`. -/
def _findBy {T : Type} (db : DataSource T) (whereClause : String) (args : List GoValue)
    (w : World T) : Outcome (List Ptr × Option Error) × World T :=
  let (r, w1) := db.call
    (DBCall.Find (GoValue.addr (GoValue.slice [])) { W := whereClause, Args := args }) w
  (Outcome.returned (r.rows, r.err), w1)

/-- The Go function `_findBySorted`. -/
def _findBySorted {T : Type} (db : DataSource T) (sort : String) (whereClause : String)
    (args : List GoValue) (w : World T) : Outcome (List Ptr × Option Error) × World T :=
  let (r, w1) := db.call
    (DBCall.Find (GoValue.addr (GoValue.slice []))
      { W := whereClause, Args := args, SortBy := sort }) w
  (Outcome.returned (r.rows, r.err), w1)

/-- The Go function `_findByIds`. -/
def _findByIds {T : Type} (db : DataSource T) (ids : List String) (w : World T) :
    Outcome (List Ptr × Option Error) × World T :=
  _findBy db "id in (?)" [GoValue.strs ids] w

/-- The Go function `_countBy`. -/
def _countBy {T : Type} (db : DataSource T) (whereClause : String) (args : List GoValue)
    (w : World T) : Outcome (Int × Option Error) × World T :=
  let (r, w1) := db.call (DBCall.Count GoValue.zero { W := whereClause, Args := args }) w
  (Outcome.returned (r.n, r.err), w1)

/-- The Go function `_countAll`. -/
def _countAll {T : Type} (db : DataSource T) (w : World T) :
    Outcome (Int × Option Error) × World T :=
  let (r, w1) := db.call (DBCall.Count GoValue.zero {}) w
  (Outcome.returned (r.n, r.err), w1)

/-- The Go function `_query`.  `IsPointer` is the helper `h.IsPointer`, which is not among
the source files. -/
def _query {T : Type} (IsPointer : GoValue → Bool) (db : DataSource T) (target : GoValue)
    (raw : String) (args : List GoValue) (w : World T) : Outcome (Option Error) × World T :=
  if !IsPointer target then (Outcome.panicked "target must be a pointer", w)
  else
    let (r, w1) := db.call (DBCall.Find target { Raw := raw, Args := args }) w
    (Outcome.returned r.err, w1)

/-- The Go function `_raw`. -/
def _raw {T : Type} [Inhabited T] (db : DataSource T) (raw : String) (args : List GoValue)
    (w : World T) : Outcome (Option Error) × World T :=
  let (m, w1) := w.alloc default
  let (r, w2) := db.call
    (DBCall.Execute (GoValue.ptr (some m))
      { Model := GoValue.ptr (some m), Raw := raw, Args := args }) w1
  (Outcome.returned r.err, w2)

/-! ### The methods of `linkedEntityRepoImpl` (db_repo.go, lines 102 to 193) -/

/-- The Go method `linkedEntityRepoImpl.CreateAll`. -/
def linkedEntityRepoImpl.CreateAll {T : Type} (r : linkedEntityRepoImpl T) (entities : List Ptr)
    (w : World T) :
    Outcome (Option Error) × World T :=
  match r.hooks.preCreateEach entities w with
  | (Outcome.panicked reason, w1) => (Outcome.panicked reason, w1)
  | (Outcome.returned _, w1) => _createAll r.db entities w1

/-- The Go method `linkedEntityRepoImpl.Create`. -/
def linkedEntityRepoImpl.Create {T : Type} (r : linkedEntityRepoImpl T) (record : Ptr)
    (w : World T) :
    Outcome (Option Error) × World T :=
  match r.hooks.callPreCreate record w with
  | (Outcome.panicked reason, w1) => (Outcome.panicked reason, w1)
  | (Outcome.returned _, w1) => _create r.db record w1

/-- The Go method `linkedEntityRepoImpl.Update`. -/
def linkedEntityRepoImpl.Update {T : Type} (r : linkedEntityRepoImpl T) (data : Ptr)
    (w : World T) :
    Outcome (Option Error) × World T :=
  _update r.db data w

/-- The Go method `linkedEntityRepoImpl.UpdateAll`. -/
def linkedEntityRepoImpl.UpdateAll {T : Type} (r : linkedEntityRepoImpl T) (data : List Ptr)
    (w : World T) :
    Outcome (Option Error) × World T :=
  _updateAll r.db data w

/-- The Go method `linkedEntityRepoImpl.DeleteBy`. -/
def linkedEntityRepoImpl.DeleteBy {T : Type} [Inhabited T] (r : linkedEntityRepoImpl T)
    (whereClause : String) (args : List GoValue) (w : World T) :
    Outcome (Option Error) × World T :=
  _deleteBy r.db whereClause args w

/-- The Go method `linkedEntityRepoImpl.DeleteById`. -/
def linkedEntityRepoImpl.DeleteById {T : Type} [Inhabited T] (r : linkedEntityRepoImpl T)
    (value : String) (w : World T) :
    Outcome (Option Error) × World T :=
  _deleteById r.db value w

/-- The Go method `linkedEntityRepoImpl.Patch`. -/
def linkedEntityRepoImpl.Patch {T : Type} (r : linkedEntityRepoImpl T) (id : String)
    (value : List (String × GoValue)) (w : World T) :
    Outcome (Option Error) × World T :=
  _patch r.db id value w

/-- The Go method `linkedEntityRepoImpl.Merge`. -/
def linkedEntityRepoImpl.Merge {T : Type} [Inhabited T] (r : linkedEntityRepoImpl T)
    (id : String) (merger : Option (Ptr → Heap T → Heap T)) (w : World T) :
    Outcome (Ptr × Option Error) × World T :=
  _merge r.db id merger w

/-- The Go method `linkedEntityRepoImpl.ExistsBy`. -/
def linkedEntityRepoImpl.ExistsBy {T : Type} (r : linkedEntityRepoImpl T) (whereClause : String)
    (args : List GoValue) (w : World T) :
    Outcome (Bool × Option Error) × World T :=
  _existsBy r.db whereClause args w

/-- The Go method `linkedEntityRepoImpl.FindAll`. -/
def linkedEntityRepoImpl.FindAll {T : Type} (r : linkedEntityRepoImpl T) (w : World T) :
    Outcome (List Ptr × Option Error) × World T :=
  _findAll r.db w

/-- The Go method `linkedEntityRepoImpl.FindAllSorted`. -/
def linkedEntityRepoImpl.FindAllSorted {T : Type} (r : linkedEntityRepoImpl T)
    (orderBy : String) (w : World T) :
    Outcome (List Ptr × Option Error) × World T :=
  _findAllSorted r.db orderBy w

/-- The Go method `linkedEntityRepoImpl.FindByInto`. -/
def linkedEntityRepoImpl.FindByInto {T : Type} (r : linkedEntityRepoImpl T) (target : GoValue)
    (whereClause : String) (args : List GoValue) (w : World T) :
    Outcome (Option Error) × World T :=
  _findByInto r.db target whereClause args w

/-- The Go method `linkedEntityRepoImpl.FindBy`. -/
def linkedEntityRepoImpl.FindBy {T : Type} (r : linkedEntityRepoImpl T) (whereClause : String)
    (args : List GoValue) (w : World T) :
    Outcome (List Ptr × Option Error) × World T :=
  _findBy r.db whereClause args w

/-- The Go method `linkedEntityRepoImpl.FindBySorted`. -/
def linkedEntityRepoImpl.FindBySorted {T : Type} (r : linkedEntityRepoImpl T) (sort : String)
    (whereClause : String) (args : List GoValue) (w : World T) :
    Outcome (List Ptr × Option Error) × World T :=
  _findBySorted r.db sort whereClause args w

/-- The Go method `linkedEntityRepoImpl.FindById`. -/
def linkedEntityRepoImpl.FindById {T : Type} [Inhabited T] (r : linkedEntityRepoImpl T)
    (id : String) (w : World T) :
    Outcome (Ptr × Option Error) × World T :=
  _firstBy r.db "id=?" [GoValue.str id] w

/-- The Go method `linkedEntityRepoImpl.ExistsById`. -/
def linkedEntityRepoImpl.ExistsById {T : Type} (r : linkedEntityRepoImpl T) (id : String)
    (w : World T) :
    Outcome (Bool × Option Error) × World T :=
  match _countBy r.db "id=?" [GoValue.str id] w with
  | (Outcome.panicked reason, w1) => (Outcome.panicked reason, w1)
  | (Outcome.returned (count, err), w1) => (Outcome.returned (decide (count > 0), err), w1)

/-- The Go method `linkedEntityRepoImpl.FindByIds`. -/
def linkedEntityRepoImpl.FindByIds {T : Type} (r : linkedEntityRepoImpl T) (ids : List String)
    (w : World T) :
    Outcome (List Ptr × Option Error) × World T :=
  _findBy r.db "id in (?)" [GoValue.strs ids] w

/-- The Go method `linkedEntityRepoImpl.FirstBy`. -/
def linkedEntityRepoImpl.FirstBy {T : Type} [Inhabited T] (r : linkedEntityRepoImpl T)
    (whereClause : String) (args : List GoValue) (w : World T) :
    Outcome (Ptr × Option Error) × World T :=
  _firstBy r.db whereClause args w

/-- The Go method `linkedEntityRepoImpl.CountBy`. -/
def linkedEntityRepoImpl.CountBy {T : Type} (r : linkedEntityRepoImpl T) (whereClause : String)
    (args : List GoValue) (w : World T) :
    Outcome (Int × Option Error) × World T :=
  _countBy r.db whereClause args w

/-- The Go method `linkedEntityRepoImpl.CountAll`. -/
def linkedEntityRepoImpl.CountAll {T : Type} (r : linkedEntityRepoImpl T) (w : World T) :
    Outcome (Int × Option Error) × World T :=
  _countAll r.db w

/-- The Go method `linkedEntityRepoImpl.Query`. -/
def linkedEntityRepoImpl.Query {T : Type} (IsPointer : GoValue → Bool)
    (r : linkedEntityRepoImpl T) (target : GoValue) (raw : String) (args : List GoValue)
    (w : World T) :
    Outcome (Option Error) × World T :=
  _query IsPointer r.db target raw args w

/-- The Go method `linkedEntityRepoImpl.Raw`. -/
def linkedEntityRepoImpl.Raw {T : Type} [Inhabited T] (r : linkedEntityRepoImpl T)
    (raw : String) (args : List GoValue) (w : World T) :
    Outcome (Option Error) × World T :=
  _raw r.db raw args w

/-! ### The methods of `entityRepoImpl` (db_repo.go, lines 199 to 285) -/

/-- The Go method `entityRepoImpl.CreateAll`. -/
def entityRepoImpl.CreateAll {T : Type} (r : entityRepoImpl T) (ctx : Ctx T)
    (entities : List Ptr) (w : World T) :
    Outcome (Option Error) × World T :=
  match r.hooks.preCreateEach entities w with
  | (Outcome.panicked reason, w1) => (Outcome.panicked reason, w1)
  | (Outcome.returned _, w1) => _createAll ctx.db entities w1

/-- The Go method `entityRepoImpl.Create`. -/
def entityRepoImpl.Create {T : Type} (r : entityRepoImpl T) (ctx : Ctx T) (record : Ptr)
    (w : World T) :
    Outcome (Option Error) × World T :=
  match r.hooks.callPreCreate record w with
  | (Outcome.panicked reason, w1) => (Outcome.panicked reason, w1)
  | (Outcome.returned _, w1) => _create ctx.db record w1

/-- The Go method `entityRepoImpl.Update`. -/
def entityRepoImpl.Update {T : Type} (_r : entityRepoImpl T) (ctx : Ctx T) (data : Ptr)
    (w : World T) :
    Outcome (Option Error) × World T :=
  _update ctx.db data w

/-- The Go method `entityRepoImpl.UpdateAll`. -/
def entityRepoImpl.UpdateAll {T : Type} (_r : entityRepoImpl T) (ctx : Ctx T) (data : List Ptr)
    (w : World T) :
    Outcome (Option Error) × World T :=
  _updateAll ctx.db data w

/-- The Go method `entityRepoImpl.DeleteBy`. -/
def entityRepoImpl.DeleteBy {T : Type} [Inhabited T] (_r : entityRepoImpl T) (ctx : Ctx T)
    (whereClause : String) (args : List GoValue) (w : World T) :
    Outcome (Option Error) × World T :=
  _deleteBy ctx.db whereClause args w

/-- The Go method `entityRepoImpl.DeleteById`. -/
def entityRepoImpl.DeleteById {T : Type} [Inhabited T] (_r : entityRepoImpl T) (ctx : Ctx T)
    (value : String) (w : World T) :
    Outcome (Option Error) × World T :=
  _deleteById ctx.db value w

/-- The Go method `entityRepoImpl.Patch`. -/
def entityRepoImpl.Patch {T : Type} (_r : entityRepoImpl T) (ctx : Ctx T) (id : String)
    (value : List (String × GoValue)) (w : World T) :
    Outcome (Option Error) × World T :=
  _patch ctx.db id value w

/-- The Go method `entityRepoImpl.Merge`. -/
def entityRepoImpl.Merge {T : Type} [Inhabited T] (_r : entityRepoImpl T) (ctx : Ctx T)
    (id : String) (merger : Option (Ptr → Heap T → Heap T)) (w : World T) :
    Outcome (Ptr × Option Error) × World T :=
  _merge ctx.db id merger w

/-- The Go method `entityRepoImpl.ExistsBy`. -/
def entityRepoImpl.ExistsBy {T : Type} (_r : entityRepoImpl T) (ctx : Ctx T)
    (whereClause : String) (args : List GoValue) (w : World T) :
    Outcome (Bool × Option Error) × World T :=
  _existsBy ctx.db whereClause args w

/-- The Go method `entityRepoImpl.FindAll`. -/
def entityRepoImpl.FindAll {T : Type} (_r : entityRepoImpl T) (ctx : Ctx T) (w : World T) :
    Outcome (List Ptr × Option Error) × World T :=
  _findAll ctx.db w

/-- The Go method `entityRepoImpl.FindAllSorted`. -/
def entityRepoImpl.FindAllSorted {T : Type} (_r : entityRepoImpl T) (ctx : Ctx T)
    (orderBy : String) (w : World T) :
    Outcome (List Ptr × Option Error) × World T :=
  _findAllSorted ctx.db orderBy w

/-- The Go method `entityRepoImpl.FindByInto`. -/
def entityRepoImpl.FindByInto {T : Type} (_r : entityRepoImpl T) (ctx : Ctx T) (target : GoValue)
    (whereClause : String) (args : List GoValue) (w : World T) :
    Outcome (Option Error) × World T :=
  _findByInto ctx.db target whereClause args w

/-- The Go method `entityRepoImpl.FindBy`. -/
def entityRepoImpl.FindBy {T : Type} (_r : entityRepoImpl T) (ctx : Ctx T) (whereClause : String)
    (args : List GoValue) (w : World T) :
    Outcome (List Ptr × Option Error) × World T :=
  _findBy ctx.db whereClause args w

/-- The Go method `entityRepoImpl.FindBySorted`. -/
def entityRepoImpl.FindBySorted {T : Type} (_r : entityRepoImpl T) (ctx : Ctx T) (sort : String)
    (whereClause : String) (args : List GoValue) (w : World T) :
    Outcome (List Ptr × Option Error) × World T :=
  _findBySorted ctx.db sort whereClause args w

/-- The Go method `entityRepoImpl.FindById`. -/
def entityRepoImpl.FindById {T : Type} [Inhabited T] (_r : entityRepoImpl T) (ctx : Ctx T)
    (id : String) (w : World T) :
    Outcome (Ptr × Option Error) × World T :=
  _firstBy ctx.db "id=?" [GoValue.str id] w

/-- The Go method `entityRepoImpl.FindByIds`. -/
def entityRepoImpl.FindByIds {T : Type} (_r : entityRepoImpl T) (ctx : Ctx T) (ids : List String)
    (w : World T) :
    Outcome (List Ptr × Option Error) × World T :=
  _findBy ctx.db "id in (?)" [GoValue.strs ids] w

/-- The Go method `entityRepoImpl.FirstBy`. -/
def entityRepoImpl.FirstBy {T : Type} [Inhabited T] (_r : entityRepoImpl T) (ctx : Ctx T)
    (whereClause : String) (args : List GoValue) (w : World T) :
    Outcome (Ptr × Option Error) × World T :=
  _firstBy ctx.db whereClause args w

/-- The Go method `entityRepoImpl.CountBy`. -/
def entityRepoImpl.CountBy {T : Type} (_r : entityRepoImpl T) (ctx : Ctx T)
    (whereClause : String) (args : List GoValue) (w : World T) :
    Outcome (Int × Option Error) × World T :=
  _countBy ctx.db whereClause args w

/-- The Go method `entityRepoImpl.CountAll`. -/
def entityRepoImpl.CountAll {T : Type} (_r : entityRepoImpl T) (ctx : Ctx T) (w : World T) :
    Outcome (Int × Option Error) × World T :=
  _countAll ctx.db w

/-- The Go method `entityRepoImpl.Query`. -/
def entityRepoImpl.Query {T : Type} (IsPointer : GoValue → Bool) (_r : entityRepoImpl T)
    (ctx : Ctx T) (target : GoValue) (raw : String) (args : List GoValue) (w : World T) :
    Outcome (Option Error) × World T :=
  _query IsPointer ctx.db target raw args w

/-- The Go method `entityRepoImpl.Raw`. -/
def entityRepoImpl.Raw {T : Type} [Inhabited T] (_r : entityRepoImpl T) (ctx : Ctx T)
    (raw : String) (args : List GoValue) (w : World T) :
    Outcome (Option Error) × World T :=
  _raw ctx.db raw args w

/-! ### Notions used to state the properties of the repositories -/

/-- The call of `First` that `_findById` issues: the destination is the fresh variable
`model`, at the address `w.next`. -/
def loadCall {T : Type} (w : World T) (id : String) : DBCall :=
  DBCall.First (GoValue.ptr (some w.next)) { W := "id=?", Args := [GoValue.str id] }

/-- Memory when `_findById` calls `First`: the fresh variable `model` holds the zero value. -/
def loadHeap {T : Type} [Inhabited T] (w : World T) : Heap T :=
  Function.update w.heap w.next default

/-- What the `DataSource` answers to the call of `First` that `_findById` issues. -/
def loadResult {T : Type} [Inhabited T] (db : DataSource T) (id : String) (w : World T) :
    DBResult T :=
  db.respond w.log (loadHeap w) (loadCall w id)

/-- Memory after `beforeMerge := *loaded`: a copy of the loaded record at a fresh address. -/
def copiedHeap {T : Type} [Inhabited T] (db : DataSource T) (id : String) (w : World T) :
    Heap T :=
  Function.update (loadResult db id w).mem (w.next + 1) ((loadResult db id w).mem w.next)

/-- Memory after `merger(loaded)`. -/
def mergedHeap {T : Type} [Inhabited T] (db : DataSource T) (id : String)
    (f : Ptr → Heap T → Heap T) (w : World T) : Heap T :=
  f (some w.next) (copiedHeap db id w)

/-- What the `DataSource` answers to `Save(loaded)` after the load and the merger. -/
def saveResult {T : Type} [Inhabited T] (db : DataSource T) (id : String)
    (f : Ptr → Heap T → Heap T) (w : World T) : DBResult T :=
  db.respond
    (w.log ++ [Event.db (loadCall w id) (loadHeap w),
               Event.merger (some w.next) (copiedHeap db id w)])
    (mergedHeap db id f w) (DBCall.Save (GoValue.ptr (some w.next)))

/-- Memory after the hook `f` has run on each of the entities, in the order of the list. -/
def hookedHeap {T : Type} (f : Ptr → Heap T → Heap T) (entities : List Ptr) (heap : Heap T) :
    Heap T :=
  entities.foldl (fun h e => f e h) heap

/-- The invocations of the hook `f`, one for each of the entities, in the order of the list,
each with the memory that the invocations before it left. -/
def hookEvents {T : Type} (f : Ptr → Heap T → Heap T) : List Ptr → Heap T → List (Event T)
  | [], _ => []
  | e :: rest, heap => Event.PreCreate e heap :: hookEvents f rest (f e heap)

/-- The record on which an event invokes the pre-create hook, if it is such an event. -/
def Event.hooked {T : Type} : Event T → Option Ptr
  | Event.PreCreate e _ => some e
  | Event.merger _ _ => none
  | Event.db _ _ => none

/-- A `DataSource` over records that are numbers: `First` finds the record 42 when
`found` is set and nothing otherwise; no call fails. -/
def sampleSource (found : Bool) : DataSource Nat :=
  { respond := fun _ heap c =>
      match c with
      | DBCall.First (GoValue.ptr (some a)) _ =>
        { n := 0, ok := found, err := none, rows := [],
          mem := if found then Function.update heap a 42 else heap }
      | _ => { n := 1, ok := false, err := none, rows := [], mem := heap } }

/-- A world with no record and no event. -/
def emptyWorld : World Nat := { heap := fun _ => 0, next := 0, log := [] }

/-! ## Part 3. `handlers/rest.go`: the list and search endpoints -/

/-- The value of a Go `int` (64 bits, two's complement) that an integer wraps to. -/
def wrapInt (x : Int) : Int :=
  (x + 9223372036854775808) % 18446744073709551616 - 9223372036854775808

/-- The Go struct `schema.PagingInput`, with the fields that the handlers read. -/
structure PagingInput where
  Page : Int
  Count : Int
  deriving DecidableEq

/-- The Go struct `schema.FilterInput`, with the fields that the handlers read. -/
structure FilterInput where
  Where : String
  Args : List GoValue
  Paging : PagingInput
  deriving DecidableEq

/-- The Go function `GetEntityList` (rest.go, lines 12 to 31).  `c.CurrentDB()` is the
`DataSource` of the context; `RaiseAny` tells whether the helper `h.RaiseAny`, which is not
among the source files, panics on the error it is given.  The result is the slice `data`. -/
def GetEntityList {T : Type} (RaiseAny : Option Error → Bool) (c : Ctx T)
    (paging : PagingInput) (w : World T) : Outcome (List Ptr) × World T :=
  let db := c.db
  let page : Int := 1
  let limit : Int := 1000
  let limit := if paging.Count > 0 then paging.Count else limit
  let page := if paging.Page > 1 then paging.Page else page
  let q : Query := { Offset := wrapInt (wrapInt (page - 1) * limit), Limit := limit }
  let (r, w1) := db.call (DBCall.Find (GoValue.addr (GoValue.slice [])) q) w
  if RaiseAny r.err then (Outcome.panicked "h.RaiseAny", w1)
  else (Outcome.returned r.rows, w1)

/-- The Go function `SearchEntity` (rest.go, lines 33 to 54). -/
def SearchEntity {T : Type} (RaiseAny : Option Error → Bool) (c : Ctx T)
    (input : FilterInput) (w : World T) : Outcome (List Ptr) × World T :=
  let db := c.db
  let page : Int := 1
  let limit : Int := 1000
  let limit := if input.Paging.Count > 0 then input.Paging.Count else limit
  let page := if input.Paging.Page > 1 then input.Paging.Page else page
  let q : Query :=
    { W := input.Where, Args := input.Args,
      Offset := wrapInt (wrapInt (page - 1) * limit), Limit := limit }
  let (r, w1) := db.call (DBCall.Find (GoValue.addr (GoValue.slice [])) q) w
  if RaiseAny r.err then (Outcome.panicked "h.RaiseAny", w1)
  else (Outcome.returned r.rows, w1)

/-- The limit that the claims give for a paging input: `count` when positive, else 1000. -/
def pageLimit (paging : PagingInput) : Int :=
  if paging.Count > 0 then paging.Count else 1000

/-- The page that the claims give for a paging input: `page` when above 1, else 1. -/
def pageNumber (paging : PagingInput) : Int :=
  if paging.Page > 1 then paging.Page else 1

/-- The query of the call of `Find` that is the last event of a world, if it is one. -/
def lastFind {T : Type} (w : World T) : Option Query :=
  match w.log.getLast? with
  | some (Event.db (DBCall.Find _ q) _) => some q
  | _ => none

/-! ## Part 4. `util/ids/ids.go`: identifiers -/

/-- The Go function `strings.HasSuffix`. -/
def HasSuffix (s : String) (suffix : String) : Bool :=
  suffix.data.isSuffixOf s.data

/-- The Go function `NewId` (ids.go, lines 9 to 15).  `guid` is the string of the identifier
that `xid.New()` generates; `IsNotEmpty` is the helper `h.IsNotEmpty`, which is not among the
source files. -/
def NewId (IsNotEmpty : String → Bool) (guid : String) (pfx : String) : String :=
  let pfx :=
    if IsNotEmpty pfx && !HasSuffix pfx "_" && !HasSuffix pfx "-" then pfx ++ "_" else pfx
  pfx ++ guid

/-- The pattern `^usr_[A-Za-z0-9]+$`. -/
def MatchesUsrPattern (s : String) : Prop :=
  ∃ t : String, s = "usr_" ++ t ∧ t.data ≠ [] ∧ ∀ c ∈ t.data, c.isAlphanum = true

/-! ### Further concrete inputs -/

/-- A `DataSource` over numbers every call of which fails with the same error. -/
def failingSource : DataSource Nat :=
  { respond := fun _ heap _ =>
      { n := 0, ok := false, err := some (Error.failure "connection reset"), rows := [],
        mem := heap } }

/-- Two features that depend on each other: `A` on `B` and `B` on `A`. -/
def twoCycle : FeatureRef → Feature
  | 0 => { Name := "A", DependsOn := [1], MigrationFS := none, Configure := some 10 }
  | 1 => { Name := "B", DependsOn := [0], MigrationFS := none, Configure := some 11 }
  | _ => { Name := "", DependsOn := [], MigrationFS := none, Configure := none }

/-- The tenants that `setupDatabase` reads from the loader of the environment: those of the
loader, or the default tenant alone when the environment has no loader. -/
def loaderTenants (DefaultTenantId : String) (env : Env GormAdapter) : List String :=
  match env.TenantLoader with
  | none => [DefaultTenantId]
  | some l => l.GetTenant

/-- An environment before `setupDatabase`, whose loader yields `acme` twice and `beta`. -/
def rawEnv : Env GormAdapter :=
  { TenantLoader := some (NewFixedTenantLoader ["acme", "acme", "beta"]), DataSources := [],
    MultiTenant := true }

/-- The state in which bootstrapping is left by a panic in the migrations of a feature `i`:
the features `ro` are configured, the dependencies of `i` among them, and `i` has issued
some of its `Migrate` calls. -/
def PanicInv {DS : Type} (DefaultTenantId : String) (G : FeatureRef → Feature) (app : App DS)
    (s : BootState DS) : Prop :=
  ∃ ro i P, Topo G ro ∧ i ∉ ro ∧ (∀ j, Dep G i j → j ∈ ro) ∧
    s.trace = traceOf DefaultTenantId G app ro ++ P ∧
    ∀ e ∈ P, ∃ ds fs loc tb, e = Effect.Migrate i ds fs loc tb

/-- The call `body i` ends from every state that satisfies the invariant: it returns as
`Good` says, or it panics in the migrations of a feature. -/
def Fine {DS : Type} (DefaultTenantId : String) (G : FeatureRef → Feature) (app : App DS)
    (U : FeatureRef → Prop) (body : FeatureRef → BootState DS → Option (Run DS))
    (i : FeatureRef) : Prop :=
  ∀ s ro, BootInv DefaultTenantId G app U s ro →
    (∃ s1 ro1, body i s = some (Run.done s1) ∧
      BootInv DefaultTenantId G app U s1 (ro1 ++ ro) ∧
      i ∈ ro1 ++ ro ∧ ∀ k ∈ ro1, Reaches G i k) ∨
    ∃ s1, body i s = some (Run.panic s1) ∧ PanicInv DefaultTenantId G app s1

/-- Two features that share the name `X`, and a feature `A` that depends on the second. -/
def sharedName : FeatureRef → Feature
  | 0 => { Name := "X", DependsOn := [], MigrationFS := none, Configure := some 10 }
  | 1 => { Name := "X", DependsOn := [], MigrationFS := none, Configure := some 11 }
  | 2 => { Name := "A", DependsOn := [1], MigrationFS := none, Configure := some 12 }
  | _ => { Name := "", DependsOn := [], MigrationFS := none, Configure := none }

/-- The application that `NewApp` builds in single-tenant mode when no database URL is
configured: `setupDatabase` returns at once and there is no `DataSource`. -/
def appWithoutDatabase : App GormAdapter :=
  let cfg : Cfg := { MultiTenant := false }
  let env : Env GormAdapter :=
    { TenantLoader := none, DataSources := [], MultiTenant := cfg.MultiTenant }
  { Env := setupDatabase "default" "" (prepareMultiTenancy "default" [] env cfg) cfg }

/-! ## Theorems -/

theorem migrate_ready {DS : Type} (D : String) (app : App DS) (feat : FeatureRef) (fs : Nat)
    (ts : List String) (h : ∀ t ∈ ts, (app.Env.DataSources.lookup t).isSome)
    (s : BootState DS) :
    migrate D app feat fs ts s =
      Run.done { s with trace := s.trace ++ migrateEffects D app feat fs ts } := by
  induction ts generalizing s with
  | nil => simp [migrate, migrateEffects]
  | cons t rest ih =>
    have ht := h t (List.mem_cons_self _ _)
    have hrest : ∀ u ∈ rest, (app.Env.DataSources.lookup u).isSome :=
      fun u hu => h u (List.mem_cons_of_mem _ hu)
    obtain ⟨ds, hds⟩ := Option.isSome_iff_exists.mp ht
    unfold migrate migrateEffects
    simp only [hds]
    by_cases hm : app.Env.MultiTenant = true
    · by_cases hd : t = D
      · simp [hm, hd, ih hrest]
      · simp [hm, hd, ih hrest]
    · simp [hm, ih hrest]

theorem acc_not_self {α : Type} (r : α → α → Prop) (a : α) (h : Acc r a) : ¬ r a a := by
  induction h with
  | intro x _ ih => exact fun hx => ih x hx hx

theorem acyclic_no_cycle (G : FeatureRef → Feature) (i : FeatureRef) (h : Acyclic G i) :
    ¬ DependsOnTrans G i i := by
  have hacc : Acc (fun j k => Relation.TransGen (fun j k => Dep G k j) j k) i := h.transGen
  intro hc
  have hc2 : Relation.TransGen (fun j k => Dep G k j) i i := by
    have := Relation.transGen_swap.mpr hc
    exact this
  exact acc_not_self _ i hacc hc2

theorem uniform_fuel {α : Type} (Q : Nat → α → Prop) (l : List α)
    (h : ∀ a ∈ l, ∃ n, ∀ fuel, n ≤ fuel → Q fuel a) :
    ∃ n, ∀ fuel, n ≤ fuel → ∀ a ∈ l, Q fuel a := by
  induction l with
  | nil => exact ⟨0, fun _ _ a ha => absurd ha (List.not_mem_nil a)⟩
  | cons x xs ih =>
    obtain ⟨n1, h1⟩ := h x (List.mem_cons_self _ _)
    obtain ⟨n2, h2⟩ := ih (fun a ha => h a (List.mem_cons_of_mem _ ha))
    refine ⟨max n1 n2, fun fuel hf a ha => ?_⟩
    rcases List.mem_cons.mp ha with rfl | ha
    · exact h1 fuel (le_trans (le_max_left _ _) hf)
    · exact h2 fuel (le_trans (le_max_right _ _) hf) a ha

theorem forEach_good {DS : Type} (D : String) (G : FeatureRef → Feature) (app : App DS)
    (U : FeatureRef → Prop) (body : FeatureRef → BootState DS → Option (Run DS))
    (ds : List FeatureRef) (h : ∀ d ∈ ds, Good D G app U body d) :
    ∀ s ro, BootInv D G app U s ro →
      ∃ s1 ro1, forEach body ds s = some (Run.done s1) ∧ BootInv D G app U s1 (ro1 ++ ro) ∧
        (∀ d ∈ ds, d ∈ ro1 ++ ro) ∧ ∀ k ∈ ro1, ∃ d ∈ ds, Reaches G d k := by
  induction ds with
  | nil =>
    intro s ro hinv
    exact ⟨s, [], rfl, by simpa using hinv, by simp, by simp⟩
  | cons x xs ih =>
    intro s ro hinv
    obtain ⟨s1, ro1, hrun, hinv1, hmem1, hreach1⟩ := h x (List.mem_cons_self _ _) s ro hinv
    obtain ⟨s2, ro2, hrun2, hinv2, hmem2, hreach2⟩ :=
      ih (fun d hd => h d (List.mem_cons_of_mem _ hd)) s1 (ro1 ++ ro) hinv1
    refine ⟨s2, ro2 ++ ro1, ?_, ?_, ?_, ?_⟩
    · simp [forEach, hrun, hrun2]
    · simpa [List.append_assoc] using hinv2
    · intro d hd
      rw [List.append_assoc]
      rcases List.mem_cons.mp hd with rfl | hd
      · exact List.mem_append_right _ hmem1
      · exact hmem2 d hd
    · intro k hk
      rcases List.mem_append.mp hk with hk | hk
      · obtain ⟨d, hd, hr⟩ := hreach2 k hk
        exact ⟨d, List.mem_cons_of_mem _ hd, hr⟩
      · exact ⟨x, List.mem_cons_self _ _, hreach1 k hk⟩

theorem configureFeature_good {DS : Type} (D : String) (G : FeatureRef → Feature)
    (app : App DS) (U : FeatureRef → Prop)
    (hclosed : ∀ i j, U i → Dep G i j → U j)
    (huniq : ∀ i j, U i → U j → (G i).Name = (G j).Name → i = j)
    (hready : ∀ i, U i → MigrateReady app (G i))
    (i : FeatureRef) (hacc : Acyclic G i) :
    U i → ∃ n, ∀ fuel, n ≤ fuel → Good D G app U (configureFeature D G app fuel) i := by
  induction hacc with
  | intro i hdeps ih =>
    intro hU
    have hall : ∀ d ∈ (G i).DependsOn, ∃ n, ∀ fuel, n ≤ fuel →
        Good D G app U (configureFeature D G app fuel) d :=
      fun d hd => ih d hd (hclosed i d hU hd)
    obtain ⟨n, hn⟩ := uniform_fuel
      (fun fuel d => Good D G app U (configureFeature D G app fuel) d) _ hall
    refine ⟨n + 1, ?_⟩
    intro fuel hfuel s ro hinv
    obtain ⟨m, rfl⟩ : ∃ m, fuel = m + 1 := ⟨fuel - 1, by omega⟩
    have hm : n ≤ m := by omega
    unfold configureFeature
    by_cases hin : (G i).Name ∈ s.bootstrap
    · rw [if_pos hin]
      obtain ⟨k, hk, hname⟩ := (hinv.2.2.1 _).mp hin
      have hki : k = i := huniq k i (hinv.2.2.2 k hk) hU hname
      subst hki
      exact ⟨s, [], rfl, by simpa using hinv, by simpa using hk, by simp⟩
    · rw [if_neg hin]
      obtain ⟨s1, ro1, hrun, hinv1, hmem1, hreach1⟩ :=
        forEach_good D G app U _ _ (hn m hm) s ro hinv
      rw [hrun]
      have hnotin : i ∉ ro1 ++ ro := by
        intro hmem
        rcases List.mem_append.mp hmem with h1 | h2
        · obtain ⟨d, hd, hr⟩ := hreach1 i h1
          exact acyclic_no_cycle G i (Acc.intro i hdeps)
            (Relation.TransGen.head' hd hr)
        · exact hin ((hinv.2.2.1 _).mpr ⟨i, h2, rfl⟩)
      have hmig : (match (G i).MigrationFS with
          | none => Run.done s1
          | some fs =>
            match app.Env.TenantLoader with
            | none => Run.panic s1
            | some loader => migrate D app i fs loader.GetTenant s1) =
          Run.done { s1 with trace := s1.trace ++ (match (G i).MigrationFS with
            | none => []
            | some fs =>
              match app.Env.TenantLoader with
              | none => []
              | some loader => migrateEffects D app i fs loader.GetTenant) } := by
        rcases hready i hU with hnone | ⟨loader, hloader, hcover⟩
        · simp [hnone]
        · cases hfs : (G i).MigrationFS with
          | none => simp
          | some fs => simp [hloader, migrate_ready D app i fs _ hcover]
      simp only [hmig]
      refine ⟨_, i :: ro1, rfl, ⟨⟨fun j hj => hmem1 j hj, hnotin, hinv1.1⟩, ?_, ?_, ?_⟩,
        List.mem_cons_self _ _, ?_⟩
      · cases hc : (G i).Configure <;>
          simp [traceOf, featureEffects, hinv1.2.1, hc]
      · intro nm
        have hnm := hinv1.2.2.1 nm
        have key : (nm = (G i).Name ∨ nm ∈ s1.bootstrap) ↔
            ∃ k ∈ i :: (ro1 ++ ro), (G k).Name = nm := by
          rw [hnm]
          constructor
          · rintro (h | ⟨k, hk, hk2⟩)
            · exact ⟨i, List.mem_cons_self _ _, h.symm⟩
            · exact ⟨k, List.mem_cons_of_mem _ hk, hk2⟩
          · rintro ⟨k, hk, hk2⟩
            rcases List.mem_cons.mp hk with rfl | hk
            · exact Or.inl hk2.symm
            · exact Or.inr ⟨k, hk, hk2⟩
        cases hc : (G i).Configure <;>
          simpa [List.mem_insert_iff] using key
      · intro k hk
        rcases List.mem_cons.mp hk with rfl | hk
        · exact hU
        · exact hinv1.2.2.2 k hk
      · intro k hk
        rcases List.mem_cons.mp hk with rfl | hk
        · exact Relation.ReflTransGen.refl
        · obtain ⟨d, hd, hr⟩ := hreach1 k hk
          exact Relation.ReflTransGen.head hd hr

theorem topo_closed (G : FeatureRef → Feature) (ro : List FeatureRef) (h : Topo G ro)
    (i j : FeatureRef) (hi : i ∈ ro) (hd : Dep G i j) : j ∈ ro := by
  induction ro with
  | nil => exact absurd hi (List.not_mem_nil i)
  | cons x xs ih =>
    rcases List.mem_cons.mp hi with rfl | hi
    · exact List.mem_cons_of_mem _ (h.1 j hd)
    · exact List.mem_cons_of_mem _ (ih h.2.2 hi)

theorem topo_reaches (G : FeatureRef → Feature) (ro : List FeatureRef) (h : Topo G ro)
    (i j : FeatureRef) (hi : i ∈ ro) (hr : Reaches G i j) : j ∈ ro := by
  induction hr with
  | refl => exact hi
  | tail _ hd ih => exact topo_closed G ro h _ _ ih hd

theorem Init_good {DS : Type} (D : String) (G : FeatureRef → Feature) (app : App DS)
    (features : List FeatureRef)
    (hacyclic : ∀ r ∈ features, Acyclic G r)
    (hunique : ∀ i j, Reachable G features i → Reachable G features j →
      (G i).Name = (G j).Name → i = j)
    (hready : ∀ i, Reachable G features i → MigrateReady app (G i)) :
    ∃ n, ∀ fuel, n ≤ fuel → ∃ s ro, App.Init D G app fuel features = some (Run.done s) ∧
      Topo G ro ∧ s.trace = traceOf D G app ro ∧
      ∀ i, Reachable G features i ↔ i ∈ ro := by
  have hclosed : ∀ i j, Reachable G features i → Dep G i j → Reachable G features j :=
    fun i j ⟨r, hr, hreach⟩ hd => ⟨r, hr, Relation.ReflTransGen.tail hreach hd⟩
  have hall : ∀ r ∈ features, ∃ n, ∀ fuel, n ≤ fuel →
      Good D G app (Reachable G features) (configureFeature D G app fuel) r :=
    fun r hr => configureFeature_good D G app _ hclosed hunique hready r (hacyclic r hr)
      ⟨r, hr, Relation.ReflTransGen.refl⟩
  obtain ⟨n, hn⟩ := uniform_fuel
    (fun fuel d => Good D G app (Reachable G features) (configureFeature D G app fuel) d) _ hall
  refine ⟨n, fun fuel hfuel => ?_⟩
  have hinv0 : BootInv D G app (Reachable G features) { bootstrap := [], trace := [] } [] :=
    ⟨trivial, rfl, by simp, by simp⟩
  obtain ⟨s, ro, hrun, hinv, hmem, -⟩ :=
    forEach_good D G app _ _ features (hn fuel hfuel) _ [] hinv0
  rw [List.append_nil] at hinv hmem
  refine ⟨s, ro, hrun, hinv.1, hinv.2.1, fun i => ⟨?_, hinv.2.2.2 i⟩⟩
  rintro ⟨r, hr, hreach⟩
  exact topo_reaches G ro hinv.1 r i (hmem r hr) hreach

theorem append_eq_split {α : Type} (l1 l2 pre post : List α) (e : α)
    (h : l1 ++ l2 = pre ++ e :: post) :
    (∃ post1, l1 = pre ++ e :: post1 ∧ post = post1 ++ l2) ∨
      (∃ pre1, pre = l1 ++ pre1 ∧ l2 = pre1 ++ e :: post) := by
  rcases List.append_eq_append_iff.mp h with ⟨a, ha, hb⟩ | ⟨c, hc, hd⟩
  · exact Or.inr ⟨a, ha, hb⟩
  · cases c with
    | nil =>
      refine Or.inr ⟨[], ?_, ?_⟩
      · simpa using hc.symm
      · simpa using hd.symm
    | cons x c1 =>
      simp only [List.cons_append, List.cons.injEq] at hd
      obtain ⟨hx, hd⟩ := hd
      subst hx
      exact Or.inl ⟨c1, hc, hd⟩

theorem migrateEffects_shape {DS : Type} (D : String) (app : App DS) (feat : FeatureRef)
    (fs : Nat) (ts : List String) :
    ∀ e ∈ migrateEffects D app feat fs ts,
      ∃ ds loc tb, e = Effect.Migrate feat ds fs loc tb := by
  induction ts with
  | nil => intro e he; simp [migrateEffects] at he
  | cons t rest ih =>
    intro e he
    unfold migrateEffects at he
    rcases List.mem_append.mp he with h1 | h2
    · cases hl : app.Env.DataSources.lookup t with
      | none => simp [hl] at h1
      | some ds =>
        simp only [hl] at h1
        by_cases hm : app.Env.MultiTenant = true
        · by_cases hd : t = D
          · simp [hm, hd] at h1; exact ⟨ds, _, _, h1⟩
          · simp [hm, hd] at h1; exact ⟨ds, _, _, h1⟩
        · simp [hm] at h1; exact ⟨ds, _, _, h1⟩
    · exact ih e h2

theorem featureEffects_shape {DS : Type} (D : String) (G : FeatureRef → Feature)
    (app : App DS) (i : FeatureRef) :
    ∃ M C, featureEffects D G app i = M ++ C ∧
      (∀ e ∈ M, ∃ ds fs loc tb, e = Effect.Migrate i ds fs loc tb) ∧
      ((G i).Configure = none ∧ C = [] ∨
        (G i).Configure.isSome ∧ C = [Effect.Configure i]) := by
  refine ⟨_, _, rfl, ?_, ?_⟩
  · intro e he
    cases hfs : (G i).MigrationFS with
    | none => simp [hfs] at he
    | some fs =>
      cases hl : app.Env.TenantLoader with
      | none => simp [hfs, hl] at he
      | some loader =>
        simp only [hfs, hl] at he
        obtain ⟨ds, loc, tb, h⟩ := migrateEffects_shape D app i fs _ e he
        exact ⟨ds, fs, loc, tb, h⟩
  · cases hc : (G i).Configure with
    | none => exact Or.inl ⟨rfl, rfl⟩
    | some c => exact Or.inr ⟨rfl, rfl⟩

theorem featureEffects_feat {DS : Type} (D : String) (G : FeatureRef → Feature)
    (app : App DS) (i : FeatureRef) : ∀ e ∈ featureEffects D G app i, e.feat = i := by
  obtain ⟨M, C, hMC, hM, hC⟩ := featureEffects_shape D G app i
  intro e he
  rw [hMC] at he
  rcases List.mem_append.mp he with h | h
  · obtain ⟨ds, fs, loc, tb, rfl⟩ := hM e h
    rfl
  · rcases hC with ⟨-, rfl⟩ | ⟨-, rfl⟩
    · simp at h
    · simp at h; subst h; rfl

theorem featureEffects_countP {DS : Type} (D : String) (G : FeatureRef → Feature)
    (app : App DS) (i j : FeatureRef) :
    (featureEffects D G app i).countP (Effect.isConfigure j) =
      if i = j ∧ (G i).Configure.isSome then 1 else 0 := by
  obtain ⟨M, C, hMC, hM, hC⟩ := featureEffects_shape D G app i
  have h0 : M.countP (Effect.isConfigure j) = 0 := by
    rw [List.countP_eq_zero]
    intro e he
    obtain ⟨ds, fs, loc, tb, rfl⟩ := hM e he
    simp [Effect.isConfigure]
  rw [hMC, List.countP_append, h0]
  rcases hC with ⟨hn, rfl⟩ | ⟨hs, rfl⟩
  · simp [hn]
  · by_cases hij : i = j
    · subst hij
      simp [hs, Effect.isConfigure]
    · simp [hij, Effect.isConfigure]

theorem traceOf_mem_feat {DS : Type} (D : String) (G : FeatureRef → Feature)
    (app : App DS) (ro : List FeatureRef) : ∀ e ∈ traceOf D G app ro, e.feat ∈ ro := by
  induction ro with
  | nil => intro e he; simp [traceOf] at he
  | cons x xs ih =>
    intro e he
    rcases List.mem_append.mp he with h | h
    · exact List.mem_cons_of_mem _ (ih e h)
    · rw [featureEffects_feat D G app x e h]
      exact List.mem_cons_self _ _

theorem traceOf_countP_absent {DS : Type} (D : String) (G : FeatureRef → Feature)
    (app : App DS) (ro : List FeatureRef) (j : FeatureRef) (hj : j ∉ ro) :
    (traceOf D G app ro).countP (Effect.isConfigure j) = 0 := by
  rw [List.countP_eq_zero]
  intro e he hc
  have := traceOf_mem_feat D G app ro e he
  cases e with
  | Migrate f ds fs loc tb => simp [Effect.isConfigure] at hc
  | Configure f =>
    simp [Effect.isConfigure] at hc
    subst hc
    exact hj this

theorem traceOf_countP {DS : Type} (D : String) (G : FeatureRef → Feature)
    (app : App DS) (ro : List FeatureRef) (h : Topo G ro) (j : FeatureRef) :
    (traceOf D G app ro).countP (Effect.isConfigure j) =
      if j ∈ ro ∧ (G j).Configure.isSome then 1 else 0 := by
  induction ro with
  | nil => simp [traceOf]
  | cons x xs ih =>
    simp only [traceOf, List.countP_append, featureEffects_countP]
    by_cases hx : x = j
    · subst hx
      rw [traceOf_countP_absent D G app xs x h.2.1]
      simp
    · have hx2 : ¬ j = x := fun h => hx h.symm
      rw [ih h.2.2]
      simp [hx, hx2]

theorem configure_mem_traceOf {DS : Type} (D : String) (G : FeatureRef → Feature)
    (app : App DS) (ro : List FeatureRef) (j : FeatureRef) (hj : j ∈ ro)
    (hc : (G j).Configure.isSome) : Effect.Configure j ∈ traceOf D G app ro := by
  induction ro with
  | nil => exact absurd hj (List.not_mem_nil j)
  | cons x xs ih =>
    rcases List.mem_cons.mp hj with rfl | hj
    · apply List.mem_append_right
      obtain ⟨c, hc⟩ := Option.isSome_iff_exists.mp hc
      simp [featureEffects, hc]
    · exact List.mem_append_left _ (ih hj)

theorem traceOf_order {DS : Type} (D : String) (G : FeatureRef → Feature)
    (app : App DS) (ro : List FeatureRef) (h : Topo G ro) (pre post : List (Effect DS))
    (e : Effect DS) (ht : traceOf D G app ro = pre ++ e :: post) (j : FeatureRef)
    (hdep : DependsOnTrans G e.feat j) (hc : (G j).Configure.isSome) :
    Effect.Configure j ∈ pre := by
  induction ro generalizing pre post with
  | nil => simp [traceOf] at ht
  | cons x xs ih =>
    rcases append_eq_split _ _ _ _ _ ht with ⟨post1, h1, -⟩ | ⟨pre1, h1, h2⟩
    · exact ih h.2.2 pre post1 h1
    · have hex : e.feat = x := featureEffects_feat D G app x e (by rw [h2]; simp)
      rw [hex] at hdep
      obtain ⟨d, hd, hr⟩ := Relation.TransGen.head'_iff.mp hdep
      have hjxs : j ∈ xs := topo_reaches G xs h.2.2 d j (h.1 d hd) hr
      rw [h1]
      exact List.mem_append_left _ (configure_mem_traceOf D G app xs j hjxs hc)

theorem traceOf_configure_last {DS : Type} (D : String) (G : FeatureRef → Feature)
    (app : App DS) (ro : List FeatureRef) (h : Topo G ro) (pre post : List (Effect DS))
    (i : FeatureRef) (ht : traceOf D G app ro = pre ++ Effect.Configure i :: post) :
    ∀ e ∈ post, e.feat ≠ i := by
  induction ro generalizing pre post with
  | nil => simp [traceOf] at ht
  | cons x xs ih =>
    rcases append_eq_split _ _ _ _ _ ht with ⟨post1, h1, h2⟩ | ⟨pre1, -, h2⟩
    · intro e he
      rw [h2] at he
      rcases List.mem_append.mp he with he | he
      · exact ih h.2.2 pre post1 h1 e he
      · rw [featureEffects_feat D G app x e he]
        have hi : i ∈ xs := traceOf_mem_feat D G app xs (Effect.Configure i) (by rw [h1]; simp)
        exact fun hxi => h.2.1 (hxi ▸ hi)
    · obtain ⟨M, C, hMC, hM, hC⟩ := featureEffects_shape D G app x
      rw [hMC] at h2
      rcases append_eq_split _ _ _ _ _ h2 with ⟨post2, h3, -⟩ | ⟨pre2, -, h4⟩
      · obtain ⟨ds, fs, loc, tb, hbad⟩ := hM (Effect.Configure i) (by rw [h3]; simp)
        cases hbad
      · rcases hC with ⟨-, rfl⟩ | ⟨-, rfl⟩
        · simp at h4
        · have hlen := congrArg List.length h4
          simp at hlen
          have hpost : post = [] := List.eq_nil_of_length_eq_zero (by omega)
          subst hpost
          intro e he
          simp at he

theorem migrate_general {DS : Type} (D : String) (app : App DS) (feat : FeatureRef) (fs : Nat)
    (ts : List String) (s : BootState DS) :
    migrate D app feat fs ts s =
        Run.done { s with trace := s.trace ++ migrateEffects D app feat fs ts } ∨
      ∃ P, migrate D app feat fs ts s = Run.panic { s with trace := s.trace ++ P } ∧
        ∀ e ∈ P, ∃ ds fs1 loc tb, e = Effect.Migrate feat ds fs1 loc tb := by
  induction ts generalizing s with
  | nil => left; simp [migrate, migrateEffects]
  | cons t rest ih =>
    have step : ∀ E : List (Effect DS),
        (∀ e ∈ E, ∃ ds fs1 loc tb, e = Effect.Migrate feat ds fs1 loc tb) →
        migrate D app feat fs rest { s with trace := s.trace ++ E } =
            Run.done { s with trace := s.trace ++ (E ++ migrateEffects D app feat fs rest) } ∨
          ∃ P, migrate D app feat fs rest { s with trace := s.trace ++ E } =
              Run.panic { s with trace := s.trace ++ P } ∧
            ∀ e ∈ P, ∃ ds fs1 loc tb, e = Effect.Migrate feat ds fs1 loc tb := by
      intro E hE
      rcases ih { s with trace := s.trace ++ E } with h | ⟨P, hP, hshape⟩
      · left
        rw [h]
        simp [List.append_assoc]
      · right
        refine ⟨E ++ P, ?_, ?_⟩
        · rw [hP]
          simp [List.append_assoc]
        · intro e he
          rcases List.mem_append.mp he with he | he
          · exact hE e he
          · exact hshape e he
    unfold migrate migrateEffects
    cases hl : app.Env.DataSources.lookup t with
    | none =>
      right
      exact ⟨[], by simp, by simp⟩
    | some ds =>
      simp only []
      by_cases hm : app.Env.MultiTenant = true
      · by_cases hd : t = D
        · simp only [hm, hd, if_true]
          exact step _ (by intro e he; simp at he; exact ⟨_, _, _, _, he⟩)
        · simp only [hm, hd, if_true, if_false]
          exact step _ (by intro e he; simp at he; exact ⟨_, _, _, _, he⟩)
      · simp only [hm, if_false, Bool.false_eq_true]
        exact step _ (by
          intro e he
          simp at he
          exact ⟨_, _, _, _, he⟩)

theorem forEach_fine {DS : Type} (D : String) (G : FeatureRef → Feature) (app : App DS)
    (U : FeatureRef → Prop) (body : FeatureRef → BootState DS → Option (Run DS))
    (ds : List FeatureRef) (h : ∀ d ∈ ds, Fine D G app U body d) :
    ∀ s ro, BootInv D G app U s ro →
      (∃ s1 ro1, forEach body ds s = some (Run.done s1) ∧ BootInv D G app U s1 (ro1 ++ ro) ∧
        (∀ d ∈ ds, d ∈ ro1 ++ ro) ∧ ∀ k ∈ ro1, ∃ d ∈ ds, Reaches G d k) ∨
      ∃ s1, forEach body ds s = some (Run.panic s1) ∧ PanicInv D G app s1 := by
  induction ds with
  | nil =>
    intro s ro hinv
    exact Or.inl ⟨s, [], rfl, by simpa using hinv, by simp, by simp⟩
  | cons x xs ih =>
    intro s ro hinv
    rcases h x (List.mem_cons_self _ _) s ro hinv with
      ⟨s1, ro1, hrun, hinv1, hmem1, hreach1⟩ | ⟨s1, hrun, hp⟩
    · rcases ih (fun d hd => h d (List.mem_cons_of_mem _ hd)) s1 (ro1 ++ ro) hinv1 with
        ⟨s2, ro2, hrun2, hinv2, hmem2, hreach2⟩ | ⟨s2, hrun2, hp2⟩
      · left
        refine ⟨s2, ro2 ++ ro1, ?_, ?_, ?_, ?_⟩
        · simp [forEach, hrun, hrun2]
        · simpa [List.append_assoc] using hinv2
        · intro d hd
          rw [List.append_assoc]
          rcases List.mem_cons.mp hd with rfl | hd
          · exact List.mem_append_right _ hmem1
          · exact hmem2 d hd
        · intro k hk
          rcases List.mem_append.mp hk with hk | hk
          · obtain ⟨d, hd, hr⟩ := hreach2 k hk
            exact ⟨d, List.mem_cons_of_mem _ hd, hr⟩
          · exact ⟨x, List.mem_cons_self _ _, hreach1 k hk⟩
      · right
        exact ⟨s2, by simp [forEach, hrun, hrun2], hp2⟩
    · right
      exact ⟨s1, by simp [forEach, hrun], hp⟩

theorem configureFeature_fine {DS : Type} (D : String) (G : FeatureRef → Feature)
    (app : App DS) (U : FeatureRef → Prop)
    (hclosed : ∀ i j, U i → Dep G i j → U j)
    (huniq : ∀ i j, U i → U j → (G i).Name = (G j).Name → i = j)
    (i : FeatureRef) (hacc : Acyclic G i) :
    U i → ∃ n, ∀ fuel, n ≤ fuel → Fine D G app U (configureFeature D G app fuel) i := by
  induction hacc with
  | intro i hdeps ih =>
    intro hU
    have hall : ∀ d ∈ (G i).DependsOn, ∃ n, ∀ fuel, n ≤ fuel →
        Fine D G app U (configureFeature D G app fuel) d :=
      fun d hd => ih d hd (hclosed i d hU hd)
    obtain ⟨n, hn⟩ := uniform_fuel
      (fun fuel d => Fine D G app U (configureFeature D G app fuel) d) _ hall
    refine ⟨n + 1, ?_⟩
    intro fuel hfuel s ro hinv
    obtain ⟨m, rfl⟩ : ∃ m, fuel = m + 1 := ⟨fuel - 1, by omega⟩
    have hm : n ≤ m := by omega
    unfold configureFeature
    by_cases hin : (G i).Name ∈ s.bootstrap
    · rw [if_pos hin]
      obtain ⟨k, hk, hname⟩ := (hinv.2.2.1 _).mp hin
      have hki : k = i := huniq k i (hinv.2.2.2 k hk) hU hname
      subst hki
      exact Or.inl ⟨s, [], rfl, by simpa using hinv, by simpa using hk, by simp⟩
    · rw [if_neg hin]
      rcases forEach_fine D G app U _ _ (hn m hm) s ro hinv with
        ⟨s1, ro1, hrun, hinv1, hmem1, hreach1⟩ | ⟨s1, hrun, hp⟩
      · rw [hrun]
        have hnotin : i ∉ ro1 ++ ro := by
          intro hmem
          rcases List.mem_append.mp hmem with h1 | h2
          · obtain ⟨d, hd, hr⟩ := hreach1 i h1
            exact acyclic_no_cycle G i (Acc.intro i hdeps)
              (Relation.TransGen.head' hd hr)
          · exact hin ((hinv.2.2.1 _).mpr ⟨i, h2, rfl⟩)
        have hmig : (match (G i).MigrationFS with
            | none => Run.done s1
            | some fs =>
              match app.Env.TenantLoader with
              | none => Run.panic s1
              | some loader => migrate D app i fs loader.GetTenant s1) =
            Run.done { s1 with trace := s1.trace ++ (match (G i).MigrationFS with
              | none => []
              | some fs =>
                match app.Env.TenantLoader with
                | none => []
                | some loader => migrateEffects D app i fs loader.GetTenant) } ∨
            ∃ P, (match (G i).MigrationFS with
              | none => Run.done s1
              | some fs =>
                match app.Env.TenantLoader with
                | none => Run.panic s1
                | some loader => migrate D app i fs loader.GetTenant s1) =
              Run.panic { s1 with trace := s1.trace ++ P } ∧
              ∀ e ∈ P, ∃ ds fs1 loc tb, e = Effect.Migrate i ds fs1 loc tb := by
          cases hfs : (G i).MigrationFS with
          | none => left; simp
          | some fs =>
            cases hl : app.Env.TenantLoader with
            | none => right; exact ⟨[], by simp, by simp⟩
            | some loader =>
              simp only []
              exact migrate_general D app i fs loader.GetTenant s1
        rcases hmig with hmig | ⟨P, hmig, hshape⟩
        · left
          simp only [hmig]
          refine ⟨_, i :: ro1, rfl,
            ⟨⟨fun j hj => hmem1 j hj, hnotin, hinv1.1⟩, ?_, ?_, ?_⟩,
            List.mem_cons_self _ _, ?_⟩
          · cases hc : (G i).Configure <;>
              simp [traceOf, featureEffects, hinv1.2.1, hc]
          · intro nm
            have hnm := hinv1.2.2.1 nm
            have key : (nm = (G i).Name ∨ nm ∈ s1.bootstrap) ↔
                ∃ k ∈ i :: (ro1 ++ ro), (G k).Name = nm := by
              rw [hnm]
              constructor
              · rintro (h | ⟨k, hk, hk2⟩)
                · exact ⟨i, List.mem_cons_self _ _, h.symm⟩
                · exact ⟨k, List.mem_cons_of_mem _ hk, hk2⟩
              · rintro ⟨k, hk, hk2⟩
                rcases List.mem_cons.mp hk with rfl | hk
                · exact Or.inl hk2.symm
                · exact Or.inr ⟨k, hk, hk2⟩
            cases hc : (G i).Configure <;>
              simpa [List.mem_insert_iff] using key
          · intro k hk
            rcases List.mem_cons.mp hk with rfl | hk
            · exact hU
            · exact hinv1.2.2.2 k hk
          · intro k hk
            rcases List.mem_cons.mp hk with rfl | hk
            · exact Relation.ReflTransGen.refl
            · obtain ⟨d, hd, hr⟩ := hreach1 k hk
              exact Relation.ReflTransGen.head hd hr
        · right
          simp only [hmig]
          exact ⟨_, rfl, ro1 ++ ro, i, P, hinv1.1, hnotin, fun j hj => hmem1 j hj,
            by simp [hinv1.2.1], hshape⟩
      · right
        exact ⟨s1, by simp [hrun], hp⟩

theorem Init_fine {DS : Type} (D : String) (G : FeatureRef → Feature) (app : App DS)
    (features : List FeatureRef)
    (hacyclic : ∀ r ∈ features, Acyclic G r)
    (hunique : ∀ i j, Reachable G features i → Reachable G features j →
      (G i).Name = (G j).Name → i = j) :
    ∃ n, ∀ fuel, n ≤ fuel →
      (∃ s ro, App.Init D G app fuel features = some (Run.done s) ∧
        Topo G ro ∧ s.trace = traceOf D G app ro ∧
        ∀ i, Reachable G features i ↔ i ∈ ro) ∨
      ∃ s, App.Init D G app fuel features = some (Run.panic s) ∧ PanicInv D G app s := by
  have hclosed : ∀ i j, Reachable G features i → Dep G i j → Reachable G features j :=
    fun i j ⟨r, hr, hreach⟩ hd => ⟨r, hr, Relation.ReflTransGen.tail hreach hd⟩
  have hall : ∀ r ∈ features, ∃ n, ∀ fuel, n ≤ fuel →
      Fine D G app (Reachable G features) (configureFeature D G app fuel) r :=
    fun r hr => configureFeature_fine D G app _ hclosed hunique r (hacyclic r hr)
      ⟨r, hr, Relation.ReflTransGen.refl⟩
  obtain ⟨n, hn⟩ := uniform_fuel
    (fun fuel d => Fine D G app (Reachable G features) (configureFeature D G app fuel) d) _ hall
  refine ⟨n, fun fuel hfuel => ?_⟩
  have hinv0 : BootInv D G app (Reachable G features) { bootstrap := [], trace := [] } [] :=
    ⟨trivial, rfl, by simp, by simp⟩
  rcases forEach_fine D G app _ _ features (hn fuel hfuel) _ [] hinv0 with
    ⟨s, ro, hrun, hinv, hmem, -⟩ | ⟨s, hrun, hp⟩
  · left
    rw [List.append_nil] at hinv hmem
    refine ⟨s, ro, hrun, hinv.1, hinv.2.1, fun i => ⟨?_, hinv.2.2.2 i⟩⟩
    rintro ⟨r, hr, hreach⟩
    exact topo_reaches G ro hinv.1 r i (hmem r hr) hreach
  · right
    exact ⟨s, hrun, hp⟩

theorem panic_order {DS : Type} (D : String) (G : FeatureRef → Feature) (app : App DS)
    (s : BootState DS) (hp : PanicInv D G app s) (pre post : List (Effect DS))
    (e : Effect DS) (ht : s.trace = pre ++ e :: post) (j : FeatureRef)
    (hdep : DependsOnTrans G e.feat j) (hc : (G j).Configure.isSome) :
    Effect.Configure j ∈ pre := by
  obtain ⟨ro, i, P, htopo, -, hdeps, htrace, hshape⟩ := hp
  rw [htrace] at ht
  rcases append_eq_split _ _ _ _ _ ht with ⟨post1, h1, -⟩ | ⟨pre1, h1, h2⟩
  · exact traceOf_order D G app ro htopo pre post1 e h1 j hdep hc
  · obtain ⟨ds, fs, loc, tb, he⟩ := hshape e (by rw [h2]; simp)
    subst he
    simp only [Effect.feat] at hdep
    obtain ⟨d, hd, hr⟩ := Relation.TransGen.head'_iff.mp hdep
    have hj : j ∈ ro := topo_reaches G ro htopo d j (hdeps d hd) hr
    rw [h1]
    exact List.mem_append_left _ (configure_mem_traceOf D G app ro j hj hc)

theorem panic_configure_last {DS : Type} (D : String) (G : FeatureRef → Feature)
    (app : App DS) (s : BootState DS) (hp : PanicInv D G app s)
    (pre post : List (Effect DS)) (k : FeatureRef)
    (ht : s.trace = pre ++ Effect.Configure k :: post) : ∀ e ∈ post, e.feat ≠ k := by
  obtain ⟨ro, i, P, htopo, hnotin, -, htrace, hshape⟩ := hp
  rw [htrace] at ht
  rcases append_eq_split _ _ _ _ _ ht with ⟨post1, h1, h2⟩ | ⟨pre1, -, h2⟩
  · intro e he
    rw [h2] at he
    rcases List.mem_append.mp he with he | he
    · exact traceOf_configure_last D G app ro htopo pre post1 k h1 e he
    · obtain ⟨ds, fs, loc, tb, rfl⟩ := hshape e he
      have hk : k ∈ ro :=
        traceOf_mem_feat D G app ro (Effect.Configure k) (by rw [h1]; simp)
      simp only [Effect.feat]
      exact fun hik => hnotin (hik ▸ hk)
  · obtain ⟨ds, fs, loc, tb, hbad⟩ := hshape (Effect.Configure k) (by rw [h2]; simp)
    cases hbad

theorem traceOf_block {DS : Type} (D : String) (G : FeatureRef → Feature) (app : App DS)
    (ro : List FeatureRef) (i : FeatureRef) (hi : i ∈ ro) :
    ∃ pre post, traceOf D G app ro = pre ++ featureEffects D G app i ++ post := by
  induction ro with
  | nil => exact absurd hi (List.not_mem_nil i)
  | cons x xs ih =>
    rcases List.mem_cons.mp hi with rfl | hi
    · exact ⟨traceOf D G app xs, [], by simp [traceOf]⟩
    · obtain ⟨pre, post, h⟩ := ih hi
      exact ⟨pre, post ++ featureEffects D G app x, by simp [traceOf, h, List.append_assoc]⟩

theorem diamond_reachable (i : FeatureRef) (h : Reachable diamond [0] i) : i < 4 := by
  obtain ⟨r, hr, hreach⟩ := h
  simp only [List.mem_singleton] at hr
  subst hr
  induction hreach with
  | refl => decide
  | @tail b c _ hd ih =>
    have hb : b < 4 := ih
    unfold Dep at hd
    clear ih
    interval_cases b <;> simp [diamond] at hd <;>
      first
        | (subst hd; decide)
        | (rcases hd with h | h <;> subst h <;> decide)

theorem diamond_acyclic : Acyclic diamond 0 := by
  have h3 : Acyclic diamond 3 := Acc.intro _ (fun j hj => by simp [Dep, diamond] at hj)
  have h1 : Acyclic diamond 1 :=
    Acc.intro _ (fun j hj => by simp [Dep, diamond] at hj; subst hj; exact h3)
  have h2 : Acyclic diamond 2 :=
    Acc.intro _ (fun j hj => by simp [Dep, diamond] at hj; subst hj; exact h3)
  exact Acc.intro _ (fun j hj => by
    simp [Dep, diamond] at hj
    rcases hj with rfl | rfl
    · exact h1
    · exact h2)

theorem diamond_unique (i j : FeatureRef) (hi : Reachable diamond [0] i)
    (hj : Reachable diamond [0] j) (h : (diamond i).Name = (diamond j).Name) : i = j := by
  have h1 := diamond_reachable i hi
  have h2 := diamond_reachable j hj
  interval_cases i <;> interval_cases j <;> simp [diamond] at h ⊢

theorem diamond_ready (i : FeatureRef) :
    MigrateReady (builtApp "default" false []) (diamond i) := by
  refine Or.inr ⟨NewFixedTenantLoader ["default"], rfl, ?_⟩
  intro t ht
  simp [NewFixedTenantLoader, TenantLoader.GetTenant] at ht
  subst ht
  rfl

/-- C1, as the code has it.  When the `DependsOn` graph below the requested features is
acyclic, no two features that can be reached share a name, and no `Migrate` call meets a
missing `DataSource` (every feature that can be reached declares no migration source, or
every tenant that the loader yields has a `DataSource`), `App.Init` returns, given fuel for
the depth of the graph, and the trace it leaves holds the `Configure` call of every feature
that can be reached and has a callback exactly once, and no `Configure` call more than
once. -/
theorem C1_configure_exactly_once {DS : Type} (DefaultTenantId : String)
    (G : FeatureRef → Feature) (app : App DS) (features : List FeatureRef)
    (hacyclic : ∀ r ∈ features, Acyclic G r)
    (hunique : ∀ i j, Reachable G features i → Reachable G features j →
      (G i).Name = (G j).Name → i = j)
    (hready : ∀ i, Reachable G features i → MigrateReady app (G i)) :
    ∃ n, ∀ fuel, n ≤ fuel → ∃ s,
      App.Init DefaultTenantId G app fuel features = some (Run.done s) ∧
      (∀ i, Reachable G features i → (G i).Configure.isSome →
        s.trace.countP (Effect.isConfigure i) = 1) ∧
      ∀ i, s.trace.countP (Effect.isConfigure i) ≤ 1 := by
  obtain ⟨n, hn⟩ := Init_good DefaultTenantId G app features hacyclic hunique hready
  refine ⟨n, fun fuel hfuel => ?_⟩
  obtain ⟨s, ro, hrun, htopo, htrace, hmem⟩ := hn fuel hfuel
  refine ⟨s, hrun, ?_, ?_⟩
  · intro i hi hc
    rw [htrace, traceOf_countP DefaultTenantId G app ro htopo i]
    simp [(hmem i).mp hi, hc]
  · intro i
    rw [htrace, traceOf_countP DefaultTenantId G app ro htopo i]
    split <;> omega

/-- C1, at the example of the specification: the diamond `A`, `B`, `C`, `D`. -/
theorem C1_configure_exactly_once_witness :
    ∃ n, ∀ fuel, n ≤ fuel → ∃ s,
      App.Init "default" diamond (builtApp "default" false []) fuel [0] = some (Run.done s) ∧
      (∀ i, Reachable diamond [0] i → (diamond i).Configure.isSome →
        s.trace.countP (Effect.isConfigure i) = 1) ∧
      ∀ i, s.trace.countP (Effect.isConfigure i) ≤ 1 :=
  C1_configure_exactly_once "default" diamond (builtApp "default" false []) [0]
    (fun r hr => by
      simp only [List.mem_singleton] at hr
      subst hr
      exact diamond_acyclic)
    diamond_unique (fun i _ => diamond_ready i)

/-- C1 fails as stated: with no database URL configured there is no `DataSource`, and
bootstrapping one feature with a migration source (an acyclic graph with unique names)
never returns normally: it panics in `Migrate` before the `Configure` callback has run. -/
theorem C1_configure_exactly_once_counterexample :
    Acyclic migratingFeature 0 ∧
      (∀ i j, Reachable migratingFeature [0] i → Reachable migratingFeature [0] j →
        (migratingFeature i).Name = (migratingFeature j).Name → i = j) ∧
      (migratingFeature 0).Configure.isSome = true ∧
      (∀ fuel, App.Init "default" migratingFeature appWithoutDatabase (fuel + 1) [0] =
        some (Run.panic { bootstrap := [], trace := [] })) ∧
      App.Init "default" migratingFeature appWithoutDatabase 0 [0] = none ∧
      ∀ fuel s, App.Init "default" migratingFeature appWithoutDatabase fuel [0] ≠
        some (Run.done s) := by
  have hreach : ∀ i, Reachable migratingFeature [0] i → i = 0 := by
    rintro i ⟨r, hr, hreach⟩
    simp only [List.mem_singleton] at hr
    subst hr
    induction hreach with
    | refl => rfl
    | tail _ hd _ => simp [Dep, migratingFeature] at hd
  have hpanic : ∀ fuel, App.Init "default" migratingFeature appWithoutDatabase (fuel + 1) [0] =
      some (Run.panic { bootstrap := [], trace := [] }) := by
    intro fuel
    simp [App.Init, forEach, configureFeature, migratingFeature, appWithoutDatabase,
      setupDatabase, prepareMultiTenancy, NewFixedTenantLoader, TenantLoader.GetTenant,
      List.lookup, migrate]
  refine ⟨Acc.intro _ (fun j hj => by simp [Dep, migratingFeature] at hj), ?_, rfl, hpanic,
    rfl, ?_⟩
  · intro i j hi hj _
    rw [hreach i hi, hreach j hj]
  · intro fuel s h
    cases fuel with
    | zero => simp [App.Init, forEach, configureFeature] at h
    | succ n =>
      rw [hpanic n] at h
      simp at h

theorem run_trace_props {DS : Type} (D : String) (G : FeatureRef → Feature) (app : App DS)
    (ro : List FeatureRef) (htopo : Topo G ro) (s : BootState DS)
    (htrace : s.trace = traceOf D G app ro) :
    (∀ pre e post j, s.trace = pre ++ e :: post → DependsOnTrans G e.feat j →
        (G j).Configure.isSome → Effect.Configure j ∈ pre) ∧
      ∀ pre i post, s.trace = pre ++ Effect.Configure i :: post →
        ∀ e ∈ post, e.feat ≠ i ∧ Effect.isMigrate i e = false := by
  refine ⟨?_, ?_⟩
  · intro pre e post j ht hdep hc
    rw [htrace] at ht
    exact traceOf_order D G app ro htopo pre post e ht j hdep hc
  · intro pre i post ht e he
    rw [htrace] at ht
    have hne := traceOf_configure_last D G app ro htopo pre post i ht e he
    refine ⟨hne, ?_⟩
    cases e with
    | Configure f => rfl
    | Migrate f ds fs loc tb =>
      simp only [Effect.feat] at hne
      simp [Effect.isMigrate, hne]

theorem panic_trace_props {DS : Type} (D : String) (G : FeatureRef → Feature) (app : App DS)
    (s : BootState DS) (hp : PanicInv D G app s) :
    (∀ pre e post j, s.trace = pre ++ e :: post → DependsOnTrans G e.feat j →
        (G j).Configure.isSome → Effect.Configure j ∈ pre) ∧
      ∀ pre i post, s.trace = pre ++ Effect.Configure i :: post →
        ∀ e ∈ post, e.feat ≠ i ∧ Effect.isMigrate i e = false := by
  refine ⟨?_, ?_⟩
  · intro pre e post j ht hdep hc
    exact panic_order D G app s hp pre post e ht j hdep hc
  · intro pre i post ht e he
    have hne := panic_configure_last D G app s hp pre post i ht e he
    refine ⟨hne, ?_⟩
    cases e with
    | Configure f => rfl
    | Migrate f ds fs loc tb =>
      simp only [Effect.feat] at hne
      simp [Effect.isMigrate, hne]

/-- C2, as the code has it.  When the `DependsOn` graph below the requested features is
acyclic and no two features that can be reached share a name, `App.Init` ends, given fuel
for the depth of the graph: it returns or it panics in a `Migrate` call on a missing
`DataSource`.  In the trace it leaves, either way, every effect of a feature (a `Migrate`
call or the `Configure` call) comes after the `Configure` call of every feature it depends
on, directly or through others, and no effect of a feature (so no `Migrate` call of it)
comes after its own `Configure` call.  When it returns, the trace holds for every feature
that can be reached its `Migrate` calls followed by its `Configure` call; and it does
return when no `Migrate` call meets a missing `DataSource`. -/
theorem C2_dependencies_first {DS : Type} (DefaultTenantId : String)
    (G : FeatureRef → Feature) (app : App DS) (features : List FeatureRef)
    (hacyclic : ∀ r ∈ features, Acyclic G r)
    (hunique : ∀ i j, Reachable G features i → Reachable G features j →
      (G i).Name = (G j).Name → i = j) :
    ∃ n, ∀ fuel, n ≤ fuel → ∃ s,
      (App.Init DefaultTenantId G app fuel features = some (Run.done s) ∨
        App.Init DefaultTenantId G app fuel features = some (Run.panic s)) ∧
      (∀ pre e post j, s.trace = pre ++ e :: post → DependsOnTrans G e.feat j →
        (G j).Configure.isSome → Effect.Configure j ∈ pre) ∧
      (∀ pre i post, s.trace = pre ++ Effect.Configure i :: post →
        ∀ e ∈ post, e.feat ≠ i ∧ Effect.isMigrate i e = false) ∧
      (App.Init DefaultTenantId G app fuel features = some (Run.done s) →
        ∀ i, Reachable G features i →
          ∃ pre post, s.trace = pre ++ featureEffects DefaultTenantId G app i ++ post) ∧
      ((∀ i, Reachable G features i → MigrateReady app (G i)) →
        App.Init DefaultTenantId G app fuel features = some (Run.done s)) := by
  by_cases hready : ∀ i, Reachable G features i → MigrateReady app (G i)
  · obtain ⟨n, hn⟩ := Init_good DefaultTenantId G app features hacyclic hunique hready
    refine ⟨n, fun fuel hfuel => ?_⟩
    obtain ⟨s, ro, hrun, htopo, htrace, hmem⟩ := hn fuel hfuel
    obtain ⟨h1, h2⟩ := run_trace_props DefaultTenantId G app ro htopo s htrace
    refine ⟨s, Or.inl hrun, h1, h2, fun _ i hi => ?_, fun _ => hrun⟩
    rw [htrace]
    exact traceOf_block DefaultTenantId G app ro i ((hmem i).mp hi)
  · obtain ⟨n, hn⟩ := Init_fine DefaultTenantId G app features hacyclic hunique
    refine ⟨n, fun fuel hfuel => ?_⟩
    rcases hn fuel hfuel with ⟨s, ro, hrun, htopo, htrace, hmem⟩ | ⟨s, hrun, hp⟩
    · obtain ⟨h1, h2⟩ := run_trace_props DefaultTenantId G app ro htopo s htrace
      refine ⟨s, Or.inl hrun, h1, h2, fun _ i hi => ?_, fun h => absurd h hready⟩
      rw [htrace]
      exact traceOf_block DefaultTenantId G app ro i ((hmem i).mp hi)
    · obtain ⟨h1, h2⟩ := panic_trace_props DefaultTenantId G app s hp
      refine ⟨s, Or.inr hrun, h1, h2, fun h => ?_, fun h => absurd h hready⟩
      rw [hrun] at h
      simp at h

/-- C2, at the diamond `A`, `B`, `C`, `D`. -/
theorem C2_dependencies_first_witness :
    ∃ n, ∀ fuel, n ≤ fuel → ∃ s,
      (App.Init "default" diamond (builtApp "default" false []) fuel [0] =
          some (Run.done s) ∨
        App.Init "default" diamond (builtApp "default" false []) fuel [0] =
          some (Run.panic s)) ∧
      (∀ pre e post j, s.trace = pre ++ e :: post → DependsOnTrans diamond e.feat j →
        (diamond j).Configure.isSome → Effect.Configure j ∈ pre) ∧
      (∀ pre i post, s.trace = pre ++ Effect.Configure i :: post →
        ∀ e ∈ post, e.feat ≠ i ∧ Effect.isMigrate i e = false) ∧
      (App.Init "default" diamond (builtApp "default" false []) fuel [0] =
          some (Run.done s) →
        ∀ i, Reachable diamond [0] i →
          ∃ pre post, s.trace =
            pre ++ featureEffects "default" diamond (builtApp "default" false []) i ++ post) ∧
      ((∀ i, Reachable diamond [0] i →
          MigrateReady (builtApp "default" false []) (diamond i)) →
        App.Init "default" diamond (builtApp "default" false []) fuel [0] =
          some (Run.done s)) :=
  C2_dependencies_first "default" diamond (builtApp "default" false []) [0]
    (fun r hr => by
      simp only [List.mem_singleton] at hr
      subst hr
      exact diamond_acyclic)
    diamond_unique

/-- C2 fails as stated: the graph is acyclic, two features share the name `X`, and `A`
depends on the second of them.  Bootstrapping the first and `A` runs the `Configure`
callback of `A` although the `Configure` callback of its dependency never runs. -/
theorem C2_dependencies_first_counterexample :
    Acyclic sharedName 0 ∧ Acyclic sharedName 2 ∧
      App.Init "default" sharedName (builtApp "default" false []) 2 [0, 2] =
        some (Run.done { bootstrap := ["A", "X"],
                         trace := [Effect.Configure 0, Effect.Configure 2] }) ∧
      Dep sharedName 2 1 ∧ (sharedName 1).Configure.isSome = true ∧
      Effect.Configure 1 ∉ ([Effect.Configure 0] : List (Effect GormAdapter)) := by
  have h0 : Acyclic sharedName 0 := Acc.intro _ (fun j hj => by simp [Dep, sharedName] at hj)
  have h1 : Acyclic sharedName 1 := Acc.intro _ (fun j hj => by simp [Dep, sharedName] at hj)
  have h2 : Acyclic sharedName 2 :=
    Acc.intro _ (fun j hj => by simp [Dep, sharedName] at hj; subst hj; exact h1)
  refine ⟨h0, h2, by decide, by simp [Dep, sharedName], rfl, by simp⟩

/-- C3. In multi-tenant mode with the tenants `acme` and `beta` (and a default tenant id
that is neither), `setupDatabase` gives the default tenant a `DataSource`, yet bootstrapping
a feature with a migration source issues `Migrate` for `acme` and `beta` only, each with
the tenant scripts: the shared scripts are applied to no `DataSource`. -/
theorem C3_default_tenant_gets_no_migration (DefaultTenantId : String)
    (hacme : DefaultTenantId ≠ "acme") (hbeta : DefaultTenantId ≠ "beta") (fuel : Nat) :
    (builtApp DefaultTenantId true ["acme", "beta"]).Env.DataSources.lookup DefaultTenantId =
        some (NewGormAdapter "postgres://db" DefaultTenantId) ∧
      App.Init DefaultTenantId migratingFeature (builtApp DefaultTenantId true ["acme", "beta"])
          (fuel + 1) [0] =
        some (Run.done
          { bootstrap := ["F"],
            trace := [Effect.Migrate 0 (NewGormAdapter "postgres://db" "acme") 1 "db/tenant"
                        DefaultMigrationsTable,
                      Effect.Migrate 0 (NewGormAdapter "postgres://db" "beta") 1 "db/tenant"
                        DefaultMigrationsTable,
                      Effect.Configure 0] }) := by
  have h1 : ("acme" == DefaultTenantId) = false := by
    simpa using fun h => hacme h.symm
  have h2 : ("beta" == DefaultTenantId) = false := by
    simpa using fun h => hbeta h.symm
  have h3 : (DefaultTenantId == "acme") = false := by simpa using hacme
  have h4 : (DefaultTenantId == "beta") = false := by simpa using hbeta
  constructor
  · simp [builtApp, setupDatabase, prepareMultiTenancy, linkTenants, NewFixedTenantLoader,
      TenantLoader.GetTenant, List.lookup, h1, h2, h3, h4]
  · simp [App.Init, forEach, configureFeature, migratingFeature, builtApp, setupDatabase,
      prepareMultiTenancy, linkTenants, NewFixedTenantLoader, TenantLoader.GetTenant,
      List.lookup, migrate, h1, h2, h3, h4, Ne.symm hacme, Ne.symm hbeta]

/-- C3, with `default` as the id of the default tenant. -/
theorem C3_default_tenant_gets_no_migration_witness :
    (builtApp "default" true ["acme", "beta"]).Env.DataSources.lookup "default" =
        some (NewGormAdapter "postgres://db" "default") ∧
      App.Init "default" migratingFeature (builtApp "default" true ["acme", "beta"]) 1 [0] =
        some (Run.done
          { bootstrap := ["F"],
            trace := [Effect.Migrate 0 (NewGormAdapter "postgres://db" "acme") 1 "db/tenant"
                        DefaultMigrationsTable,
                      Effect.Migrate 0 (NewGormAdapter "postgres://db" "beta") 1 "db/tenant"
                        DefaultMigrationsTable,
                      Effect.Configure 0] }) :=
  C3_default_tenant_gets_no_migration "default" (by decide) (by decide) 0

/-- C4. In single-tenant mode bootstrapping a feature with a migration source issues
`Migrate` on the tenant's `DataSource` twice, both times with the location `db`. -/
theorem C4_single_tenant_migrates_twice (DefaultTenantId : String) (fuel : Nat) :
    ∃ s, App.Init DefaultTenantId migratingFeature (builtApp DefaultTenantId false [])
          (fuel + 1) [0] = some (Run.done s) ∧
      s.trace = [Effect.Migrate 0 (NewGormAdapter "postgres://db" DefaultTenantId) 1 "db"
                    DefaultMigrationsTable,
                 Effect.Migrate 0 (NewGormAdapter "postgres://db" DefaultTenantId) 1 "db"
                    DefaultMigrationsTable,
                 Effect.Configure 0] ∧
      s.trace.countP (Effect.isMigrate 0) = 2 := by
  refine ⟨{ bootstrap := ["F"],
            trace := [Effect.Migrate 0 (NewGormAdapter "postgres://db" DefaultTenantId) 1 "db"
                        DefaultMigrationsTable,
                      Effect.Migrate 0 (NewGormAdapter "postgres://db" DefaultTenantId) 1 "db"
                        DefaultMigrationsTable,
                      Effect.Configure 0] }, ?_, rfl, ?_⟩
  · simp [App.Init, forEach, configureFeature, migratingFeature, builtApp, setupDatabase,
      prepareMultiTenancy, linkTenants, NewFixedTenantLoader, TenantLoader.GetTenant,
      List.lookup, migrate]
  · simp [Effect.isMigrate]

theorem preCreateEach_some {T : Type} (f : Ptr → Heap T → Heap T) (entities : List Ptr)
    (w : World T) :
    RepoHooks.preCreateEach { PreCreate := some f } entities w =
      (Outcome.returned (),
        { heap := hookedHeap f entities w.heap, next := w.next,
          log := w.log ++ hookEvents f entities w.heap }) := by
  induction entities generalizing w with
  | nil => simp [RepoHooks.preCreateEach, hookedHeap, hookEvents]
  | cons e rest ih =>
    simp [RepoHooks.preCreateEach, RepoHooks.callPreCreate, ih, hookedHeap, hookEvents]

theorem hookEvents_hooked {T : Type} (f : Ptr → Heap T → Heap T) (entities : List Ptr)
    (heap : Heap T) : (hookEvents f entities heap).map Event.hooked = entities.map some := by
  induction entities generalizing heap with
  | nil => rfl
  | cons e rest ih => simp [hookEvents, Event.hooked, ih]

/-- C5. When `First` reports `found = false` and no error, `Merge` (both flavours) does not
return: it panics on `*loaded`.  Up to then it has issued the call of `First` and nothing
else, so the merger has not run and nothing has been saved. -/
theorem C5_merge_absent_record_panics {T : Type} [Inhabited T] (db : DataSource T)
    (id : String) (merger : Option (Ptr → Heap T → Heap T))
    (hook : Option (Ptr → Heap T → Heap T))
    (w : World T)
    (hfound : (loadResult db id w).ok = false) (herr : (loadResult db id w).err = none) :
    linkedEntityRepoImpl.Merge (NewLinkedEntityRepo hook db) id merger w =
        (Outcome.panicked "invalid memory address or nil pointer dereference",
          { heap := (loadResult db id w).mem, next := w.next + 1,
            log := w.log ++ [Event.db (loadCall w id) (loadHeap w)] }) ∧
      entityRepoImpl.Merge (NewRepoImpl hook) { db := db } id merger w =
        (Outcome.panicked "invalid memory address or nil pointer dereference",
          { heap := (loadResult db id w).mem, next := w.next + 1,
            log := w.log ++ [Event.db (loadCall w id) (loadHeap w)] }) := by
  have key : _merge db id merger w =
      (Outcome.panicked "invalid memory address or nil pointer dereference",
        { heap := (loadResult db id w).mem, next := w.next + 1,
          log := w.log ++ [Event.db (loadCall w id) (loadHeap w)] }) := by
    have h1 : (db.respond w.log (Function.update w.heap w.next default)
        (DBCall.First (GoValue.ptr (some w.next))
          { W := "id=?", Args := [GoValue.str id] })).ok = false := hfound
    have h2 : (db.respond w.log (Function.update w.heap w.next default)
        (DBCall.First (GoValue.ptr (some w.next))
          { W := "id=?", Args := [GoValue.str id] })).err = none := herr
    simp [_merge, _findById, _firstBy, World.alloc, DataSource.call, h1, h2, loadResult,
      loadCall, loadHeap]
  exact ⟨key, key⟩

/-- C5, at a `DataSource` that finds nothing. -/
theorem C5_merge_absent_record_panics_witness :
    linkedEntityRepoImpl.Merge (NewLinkedEntityRepo none (sampleSource false)) "u1"
        (some (fun _ h => h)) emptyWorld =
        (Outcome.panicked "invalid memory address or nil pointer dereference",
          { heap := (loadResult (sampleSource false) "u1" emptyWorld).mem,
            next := emptyWorld.next + 1,
            log := emptyWorld.log ++
              [Event.db (loadCall emptyWorld "u1") (loadHeap emptyWorld)] }) ∧
      entityRepoImpl.Merge (NewRepoImpl none) { db := sampleSource false } "u1"
        (some (fun _ h => h)) emptyWorld =
        (Outcome.panicked "invalid memory address or nil pointer dereference",
          { heap := (loadResult (sampleSource false) "u1" emptyWorld).mem,
            next := emptyWorld.next + 1,
            log := emptyWorld.log ++
              [Event.db (loadCall emptyWorld "u1") (loadHeap emptyWorld)] }) :=
  C5_merge_absent_record_panics (sampleSource false) "u1" (some (fun _ h => h)) none emptyWorld
    rfl rfl

/-- C6. When `First` reports `found = true` and no error, `Merge` (both flavours) with a
merger `f` returns the pointer to the loaded record together with the error of `Save`, and
the events it adds are the call of `First`, the invocation of `f` on the loaded record, and
one call of `Save` on that record with the memory that `f` left. -/
theorem C6_merge_always_saves {T : Type} [Inhabited T] (db : DataSource T) (id : String)
    (f : Ptr → Heap T → Heap T) (hook : Option (Ptr → Heap T → Heap T)) (w : World T)
    (hfound : (loadResult db id w).ok = true) (herr : (loadResult db id w).err = none) :
    linkedEntityRepoImpl.Merge (NewLinkedEntityRepo hook db) id (some f) w =
        (Outcome.returned (some w.next, (saveResult db id f w).err),
          { heap := (saveResult db id f w).mem, next := w.next + 2,
            log := w.log ++ [Event.db (loadCall w id) (loadHeap w),
                             Event.merger (some w.next) (copiedHeap db id w),
                             Event.db (DBCall.Save (GoValue.ptr (some w.next)))
                               (f (some w.next) (copiedHeap db id w))] }) ∧
      entityRepoImpl.Merge (NewRepoImpl hook) { db := db } id (some f) w =
        (Outcome.returned (some w.next, (saveResult db id f w).err),
          { heap := (saveResult db id f w).mem, next := w.next + 2,
            log := w.log ++ [Event.db (loadCall w id) (loadHeap w),
                             Event.merger (some w.next) (copiedHeap db id w),
                             Event.db (DBCall.Save (GoValue.ptr (some w.next)))
                               (f (some w.next) (copiedHeap db id w))] }) := by
  have key : _merge db id (some f) w =
      (Outcome.returned (some w.next, (saveResult db id f w).err),
        { heap := (saveResult db id f w).mem, next := w.next + 2,
          log := w.log ++ [Event.db (loadCall w id) (loadHeap w),
                           Event.merger (some w.next) (copiedHeap db id w),
                           Event.db (DBCall.Save (GoValue.ptr (some w.next)))
                             (f (some w.next) (copiedHeap db id w))] }) := by
    have h1 : (db.respond w.log (Function.update w.heap w.next default)
        (DBCall.First (GoValue.ptr (some w.next))
          { W := "id=?", Args := [GoValue.str id] })).ok = true := hfound
    have h2 : (db.respond w.log (Function.update w.heap w.next default)
        (DBCall.First (GoValue.ptr (some w.next))
          { W := "id=?", Args := [GoValue.str id] })).err = none := herr
    simp [_merge, _findById, _firstBy, World.alloc, DataSource.call, h1, h2, loadResult,
      loadCall, loadHeap, saveResult, copiedHeap, mergedHeap]
  exact ⟨key, key⟩

/-- C6, at a `DataSource` that finds the record and a merger that changes nothing. -/
theorem C6_merge_always_saves_witness :
    linkedEntityRepoImpl.Merge (NewLinkedEntityRepo none (sampleSource true)) "u1"
        (some (fun _ h => h)) emptyWorld =
        (Outcome.returned (some emptyWorld.next,
            (saveResult (sampleSource true) "u1" (fun _ h => h) emptyWorld).err),
          { heap := (saveResult (sampleSource true) "u1" (fun _ h => h) emptyWorld).mem,
            next := emptyWorld.next + 2,
            log := emptyWorld.log ++ [Event.db (loadCall emptyWorld "u1") (loadHeap emptyWorld),
              Event.merger (some emptyWorld.next) (copiedHeap (sampleSource true) "u1" emptyWorld),
              Event.db (DBCall.Save (GoValue.ptr (some emptyWorld.next)))
                ((fun _ h => h) (some emptyWorld.next)
                  (copiedHeap (sampleSource true) "u1" emptyWorld))] }) ∧
      entityRepoImpl.Merge (NewRepoImpl none) { db := sampleSource true } "u1"
        (some (fun _ h => h)) emptyWorld =
        (Outcome.returned (some emptyWorld.next,
            (saveResult (sampleSource true) "u1" (fun _ h => h) emptyWorld).err),
          { heap := (saveResult (sampleSource true) "u1" (fun _ h => h) emptyWorld).mem,
            next := emptyWorld.next + 2,
            log := emptyWorld.log ++ [Event.db (loadCall emptyWorld "u1") (loadHeap emptyWorld),
              Event.merger (some emptyWorld.next) (copiedHeap (sampleSource true) "u1" emptyWorld),
              Event.db (DBCall.Save (GoValue.ptr (some emptyWorld.next)))
                ((fun _ h => h) (some emptyWorld.next)
                  (copiedHeap (sampleSource true) "u1" emptyWorld))] }) :=
  C6_merge_always_saves (sampleSource true) "u1" (fun _ h => h) none emptyWorld rfl rfl

/-- C7. `Create` of a repository built with a pre-create hook `f` (both flavours) invokes `f`
once on the record and then calls `Create` of the `DataSource` once, on that record and
with the memory that `f` left; it returns the error of that call. -/
theorem C7_create_runs_hook_then_persists {T : Type} (db : DataSource T)
    (f : Ptr → Heap T → Heap T) (record : Ptr) (w : World T) :
    linkedEntityRepoImpl.Create (NewLinkedEntityRepo (some f) db) record w =
        (Outcome.returned
            (db.respond (w.log ++ [Event.PreCreate record w.heap]) (f record w.heap)
              (DBCall.Create (GoValue.addr (GoValue.ptr record)))).err,
          { heap := (db.respond (w.log ++ [Event.PreCreate record w.heap]) (f record w.heap)
              (DBCall.Create (GoValue.addr (GoValue.ptr record)))).mem,
            next := w.next,
            log := w.log ++ [Event.PreCreate record w.heap,
                             Event.db (DBCall.Create (GoValue.addr (GoValue.ptr record)))
                               (f record w.heap)] }) ∧
      entityRepoImpl.Create (NewRepoImpl (some f)) { db := db } record w =
        (Outcome.returned
            (db.respond (w.log ++ [Event.PreCreate record w.heap]) (f record w.heap)
              (DBCall.Create (GoValue.addr (GoValue.ptr record)))).err,
          { heap := (db.respond (w.log ++ [Event.PreCreate record w.heap]) (f record w.heap)
              (DBCall.Create (GoValue.addr (GoValue.ptr record)))).mem,
            next := w.next,
            log := w.log ++ [Event.PreCreate record w.heap,
                             Event.db (DBCall.Create (GoValue.addr (GoValue.ptr record)))
                               (f record w.heap)] }) := by
  constructor <;>
    simp [linkedEntityRepoImpl.Create, entityRepoImpl.Create, NewLinkedEntityRepo, NewRepoImpl,
      RepoHooks.callPreCreate, _create, DataSource.call]

/-- C8, as the code has it.  The hook is called without a test for nil: `Create` of a
repository built with a nil hook (both flavours) panics before any call of the
`DataSource`, and so does `CreateAll` on a list that is not empty; `CreateAll` on the empty
list calls no hook and issues the batch `Create` as given. -/
theorem C8_nil_hook_panics {T : Type} (db : DataSource T) (record : Ptr) (rest : List Ptr)
    (w : World T) :
    linkedEntityRepoImpl.Create (NewLinkedEntityRepo none db) record w =
        (Outcome.panicked "invalid memory address or nil pointer dereference", w) ∧
      entityRepoImpl.Create (NewRepoImpl none) { db := db } record w =
        (Outcome.panicked "invalid memory address or nil pointer dereference", w) ∧
      linkedEntityRepoImpl.CreateAll (NewLinkedEntityRepo none db) (record :: rest) w =
        (Outcome.panicked "invalid memory address or nil pointer dereference", w) ∧
      entityRepoImpl.CreateAll (NewRepoImpl none) { db := db } (record :: rest) w =
        (Outcome.panicked "invalid memory address or nil pointer dereference", w) ∧
      linkedEntityRepoImpl.CreateAll (NewLinkedEntityRepo none db) [] w =
        (Outcome.returned (db.respond w.log w.heap (DBCall.Create (GoValue.slice []))).err,
          { heap := (db.respond w.log w.heap (DBCall.Create (GoValue.slice []))).mem,
            next := w.next,
            log := w.log ++ [Event.db (DBCall.Create (GoValue.slice [])) w.heap] }) ∧
      entityRepoImpl.CreateAll (NewRepoImpl none) { db := db } [] w =
        (Outcome.returned (db.respond w.log w.heap (DBCall.Create (GoValue.slice []))).err,
          { heap := (db.respond w.log w.heap (DBCall.Create (GoValue.slice []))).mem,
            next := w.next,
            log := w.log ++ [Event.db (DBCall.Create (GoValue.slice [])) w.heap] }) := by
  refine ⟨rfl, rfl, rfl, rfl, rfl, rfl⟩

/-- C8 fails as stated: with a nil hook, `Create` of one record in the empty world panics,
and the `DataSource` has not been called. -/
theorem C8_nil_hook_counterexample :
    ¬ (∃ err w1, entityRepoImpl.Create (NewRepoImpl none) { db := sampleSource true } (some 0)
          emptyWorld = (Outcome.returned err, w1)) ∧
      (entityRepoImpl.Create (NewRepoImpl none) { db := sampleSource true } (some 0)
          emptyWorld).2.log = [] := by
  constructor
  · rintro ⟨err, w1, h⟩
    have h1 := congrArg Prod.fst h
    simp [entityRepoImpl.Create, NewRepoImpl, RepoHooks.callPreCreate] at h1
  · rfl

/-- C9. `CreateAll` of a repository built with a pre-create hook `f` (both flavours) invokes
`f` once on each entity in the order of the list, then calls `Create` of the `DataSource`
once with the whole list, and returns the error of that call; `UpdateAll` calls `Save` once
with the whole list and returns the error of that call. -/
theorem C9_batch_operations {T : Type} (db : DataSource T) (f : Ptr → Heap T → Heap T)
    (hook : Option (Ptr → Heap T → Heap T)) (entities : List Ptr) (w : World T) :
    (linkedEntityRepoImpl.CreateAll (NewLinkedEntityRepo (some f) db) entities w =
        (Outcome.returned
            (db.respond (w.log ++ hookEvents f entities w.heap) (hookedHeap f entities w.heap)
              (DBCall.Create (GoValue.slice entities))).err,
          { heap := (db.respond (w.log ++ hookEvents f entities w.heap)
              (hookedHeap f entities w.heap) (DBCall.Create (GoValue.slice entities))).mem,
            next := w.next,
            log := w.log ++ hookEvents f entities w.heap ++
              [Event.db (DBCall.Create (GoValue.slice entities))
                (hookedHeap f entities w.heap)] })) ∧
      (entityRepoImpl.CreateAll (NewRepoImpl (some f)) { db := db } entities w =
        linkedEntityRepoImpl.CreateAll (NewLinkedEntityRepo (some f) db) entities w) ∧
      (hookEvents f entities w.heap).map Event.hooked = entities.map some ∧
      (linkedEntityRepoImpl.UpdateAll (NewLinkedEntityRepo hook db) entities w =
        (Outcome.returned
            (db.respond w.log w.heap (DBCall.Save (GoValue.addr (GoValue.slice entities)))).err,
          { heap := (db.respond w.log w.heap
              (DBCall.Save (GoValue.addr (GoValue.slice entities)))).mem,
            next := w.next,
            log := w.log ++
              [Event.db (DBCall.Save (GoValue.addr (GoValue.slice entities))) w.heap] })) ∧
      (entityRepoImpl.UpdateAll (NewRepoImpl hook) { db := db } entities w =
        linkedEntityRepoImpl.UpdateAll (NewLinkedEntityRepo hook db) entities w) := by
  refine ⟨?_, rfl, hookEvents_hooked f entities w.heap, rfl, rfl⟩
  simp [linkedEntityRepoImpl.CreateAll, NewLinkedEntityRepo, preCreateEach_some, _createAll,
    DataSource.call]

/-- C10. For every hook, every context and every operation that the two flavours share, the
repository bound to the context does, in every world, what the repository bound to the
`DataSource` of that context does: the same events, the same memory, the same result. -/
theorem C10_flavours_agree {T : Type} [Inhabited T] (hook : Option (Ptr → Heap T → Heap T))
    (ctx : Ctx T) (IsPointer : GoValue → Bool) :
    (∀ entities w, entityRepoImpl.CreateAll (NewRepoImpl hook) ctx entities w =
        linkedEntityRepoImpl.CreateAll (NewLinkedEntityRepo hook ctx.db) entities w) ∧
    (∀ record w, entityRepoImpl.Create (NewRepoImpl hook) ctx record w =
        linkedEntityRepoImpl.Create (NewLinkedEntityRepo hook ctx.db) record w) ∧
    (∀ data w, entityRepoImpl.Update (NewRepoImpl hook) ctx data w =
        linkedEntityRepoImpl.Update (NewLinkedEntityRepo hook ctx.db) data w) ∧
    (∀ data w, entityRepoImpl.UpdateAll (NewRepoImpl hook) ctx data w =
        linkedEntityRepoImpl.UpdateAll (NewLinkedEntityRepo hook ctx.db) data w) ∧
    (∀ whereClause args w, entityRepoImpl.DeleteBy (NewRepoImpl hook) ctx whereClause args w =
        linkedEntityRepoImpl.DeleteBy (NewLinkedEntityRepo hook ctx.db) whereClause args w) ∧
    (∀ value w, entityRepoImpl.DeleteById (NewRepoImpl hook) ctx value w =
        linkedEntityRepoImpl.DeleteById (NewLinkedEntityRepo hook ctx.db) value w) ∧
    (∀ id value w, entityRepoImpl.Patch (NewRepoImpl hook) ctx id value w =
        linkedEntityRepoImpl.Patch (NewLinkedEntityRepo hook ctx.db) id value w) ∧
    (∀ id merger w, entityRepoImpl.Merge (NewRepoImpl hook) ctx id merger w =
        linkedEntityRepoImpl.Merge (NewLinkedEntityRepo hook ctx.db) id merger w) ∧
    (∀ whereClause args w, entityRepoImpl.ExistsBy (NewRepoImpl hook) ctx whereClause args w =
        linkedEntityRepoImpl.ExistsBy (NewLinkedEntityRepo hook ctx.db) whereClause args w) ∧
    (∀ w, entityRepoImpl.FindAll (NewRepoImpl hook) ctx w =
        linkedEntityRepoImpl.FindAll (NewLinkedEntityRepo hook ctx.db) w) ∧
    (∀ orderBy w, entityRepoImpl.FindAllSorted (NewRepoImpl hook) ctx orderBy w =
        linkedEntityRepoImpl.FindAllSorted (NewLinkedEntityRepo hook ctx.db) orderBy w) ∧
    (∀ whereClause args w, entityRepoImpl.FindBy (NewRepoImpl hook) ctx whereClause args w =
        linkedEntityRepoImpl.FindBy (NewLinkedEntityRepo hook ctx.db) whereClause args w) ∧
    (∀ sort whereClause args w,
      entityRepoImpl.FindBySorted (NewRepoImpl hook) ctx sort whereClause args w =
        linkedEntityRepoImpl.FindBySorted (NewLinkedEntityRepo hook ctx.db)
          sort whereClause args w) ∧
    (∀ target whereClause args w,
      entityRepoImpl.FindByInto (NewRepoImpl hook) ctx target whereClause args w =
        linkedEntityRepoImpl.FindByInto (NewLinkedEntityRepo hook ctx.db)
          target whereClause args w) ∧
    (∀ id w, entityRepoImpl.FindById (NewRepoImpl hook) ctx id w =
        linkedEntityRepoImpl.FindById (NewLinkedEntityRepo hook ctx.db) id w) ∧
    (∀ ids w, entityRepoImpl.FindByIds (NewRepoImpl hook) ctx ids w =
        linkedEntityRepoImpl.FindByIds (NewLinkedEntityRepo hook ctx.db) ids w) ∧
    (∀ whereClause args w, entityRepoImpl.FirstBy (NewRepoImpl hook) ctx whereClause args w =
        linkedEntityRepoImpl.FirstBy (NewLinkedEntityRepo hook ctx.db) whereClause args w) ∧
    (∀ whereClause args w, entityRepoImpl.CountBy (NewRepoImpl hook) ctx whereClause args w =
        linkedEntityRepoImpl.CountBy (NewLinkedEntityRepo hook ctx.db) whereClause args w) ∧
    (∀ w, entityRepoImpl.CountAll (NewRepoImpl hook) ctx w =
        linkedEntityRepoImpl.CountAll (NewLinkedEntityRepo hook ctx.db) w) ∧
    (∀ target raw args w,
      entityRepoImpl.Query IsPointer (NewRepoImpl hook) ctx target raw args w =
        linkedEntityRepoImpl.Query IsPointer (NewLinkedEntityRepo hook ctx.db)
          target raw args w) ∧
    (∀ raw args w, entityRepoImpl.Raw (NewRepoImpl hook) ctx raw args w =
        linkedEntityRepoImpl.Raw (NewLinkedEntityRepo hook ctx.db) raw args w) := by
  refine ⟨?_, ?_, ?_, ?_, ?_, ?_, ?_, ?_, ?_, ?_, ?_, ?_, ?_, ?_, ?_, ?_, ?_, ?_, ?_, ?_,
    ?_⟩ <;> intros <;> rfl

theorem wrapInt_of_fits (x : Int) (h0 : 0 ≤ x) (h1 : x < 9223372036854775808) :
    wrapInt x = x := by
  unfold wrapInt
  omega

theorem wrapInt_mul_left (a b : Int) : wrapInt (wrapInt a * b) = wrapInt (a * b) := by
  have hk : ∃ k : Int, wrapInt a = a + k * 18446744073709551616 := by
    refine ⟨-((a + 9223372036854775808) / 18446744073709551616), ?_⟩
    unfold wrapInt
    omega
  obtain ⟨k, hk⟩ := hk
  have hm : (a * b + k * b * 18446744073709551616 + 9223372036854775808) %
      18446744073709551616 = (a * b + 9223372036854775808) % 18446744073709551616 := by
    have : a * b + k * b * 18446744073709551616 + 9223372036854775808 =
        (a * b + 9223372036854775808) + (k * b) * 18446744073709551616 := by ring
    rw [this, Int.add_mul_emod_self]
  rw [hk]
  have e : (a + k * 18446744073709551616) * b = a * b + k * b * 18446744073709551616 := by
    ring
  rw [e]
  unfold wrapInt
  rw [hm]

theorem ite_pair_snd {α β : Type} (c : Prop) [Decidable c] (a b : α) (x : β) :
    (if c then (a, x) else (b, x)).2 = x := by
  split <;> rfl

theorem lastFind_after_call {T : Type} (db : DataSource T) (target : GoValue) (q : Query)
    (w : World T) : lastFind (db.call (DBCall.Find target q) w).2 = some q := by
  simp [lastFind, DataSource.call]

theorem GetEntityList_world {T : Type} (RaiseAny : Option Error → Bool) (c : Ctx T)
    (paging : PagingInput) (w : World T) :
    (GetEntityList RaiseAny c paging w).2 =
      (c.db.call (DBCall.Find (GoValue.addr (GoValue.slice []))
        { Offset := wrapInt ((pageNumber paging - 1) * pageLimit paging),
          Limit := pageLimit paging }) w).2 := by
  unfold GetEntityList
  simp only [wrapInt_mul_left, pageNumber, pageLimit]
  exact ite_pair_snd _ _ _ _

theorem SearchEntity_world {T : Type} (RaiseAny : Option Error → Bool) (c : Ctx T)
    (input : FilterInput) (w : World T) :
    (SearchEntity RaiseAny c input w).2 =
      (c.db.call (DBCall.Find (GoValue.addr (GoValue.slice []))
        { W := input.Where, Args := input.Args,
          Offset := wrapInt ((pageNumber input.Paging - 1) * pageLimit input.Paging),
          Limit := pageLimit input.Paging }) w).2 := by
  unfold SearchEntity
  simp only [wrapInt_mul_left, pageNumber, pageLimit]
  exact ite_pair_snd _ _ _ _

theorem pageLimit_pos (paging : PagingInput) : 1 ≤ pageLimit paging := by
  unfold pageLimit
  split <;> omega

theorem pageNumber_pos (paging : PagingInput) : 1 ≤ pageNumber paging := by
  unfold pageNumber
  split <;> omega

theorem pageOffset_nonneg (paging : PagingInput) :
    0 ≤ (pageNumber paging - 1) * pageLimit paging :=
  mul_nonneg (by have := pageNumber_pos paging; omega) (by have := pageLimit_pos paging; omega)

/-- C11, as the code has it.  For every paging input `GetEntityList` and `SearchEntity`
issue one call of `Find` whose `Limit` is `count` when `count > 0` and 1000 otherwise; its
`Offset` is `(p - 1) * Limit`, where `p` is `page` when `page > 1` and 1 otherwise, whenever
that product is below `2^63`, that is, fits a Go `int`.  No paging input gives `Offset` 0
and `Limit` 1000, and page 2 with count 10 gives `Offset` 10 and `Limit` 10. -/
theorem C11_paging_query {T : Type} (RaiseAny : Option Error → Bool) (c : Ctx T)
    (paging : PagingInput) (whereClause : String) (args : List GoValue) (w : World T) :
    (∃ q1 q2, lastFind (GetEntityList RaiseAny c paging w).2 = some q1 ∧
      lastFind (SearchEntity RaiseAny c
          { Where := whereClause, Args := args, Paging := paging } w).2 = some q2 ∧
      q1.Limit = pageLimit paging ∧ q2.Limit = pageLimit paging ∧
      q2.W = whereClause ∧ q2.Args = args ∧
      ((pageNumber paging - 1) * pageLimit paging < 9223372036854775808 →
        q1.Offset = (pageNumber paging - 1) * pageLimit paging ∧
        q2.Offset = (pageNumber paging - 1) * pageLimit paging)) ∧
      (GetEntityList RaiseAny c paging w).2.log.length = w.log.length + 1 ∧
      (SearchEntity RaiseAny c
          { Where := whereClause, Args := args, Paging := paging } w).2.log.length =
        w.log.length + 1 ∧
      lastFind (GetEntityList RaiseAny c { Page := 0, Count := 0 } w).2 =
        some { Offset := 0, Limit := 1000 } ∧
      lastFind (GetEntityList RaiseAny c { Page := 2, Count := 10 } w).2 =
        some { Offset := 10, Limit := 10 } ∧
      lastFind (SearchEntity RaiseAny c
          { Where := whereClause, Args := args, Paging := { Page := 2, Count := 10 } } w).2 =
        some { W := whereClause, Args := args, Offset := 10, Limit := 10 } := by
  refine ⟨⟨{ Offset := wrapInt ((pageNumber paging - 1) * pageLimit paging),
             Limit := pageLimit paging },
    { W := whereClause, Args := args,
      Offset := wrapInt ((pageNumber paging - 1) * pageLimit paging),
      Limit := pageLimit paging }, ?_, ?_, rfl, rfl, rfl, rfl, ?_⟩, ?_, ?_, ?_, ?_, ?_⟩
  · rw [GetEntityList_world, lastFind_after_call]
  · rw [SearchEntity_world, lastFind_after_call]
  · intro hfits
    have h := wrapInt_of_fits _ (pageOffset_nonneg paging) hfits
    exact ⟨h, h⟩
  · rw [GetEntityList_world]
    simp [DataSource.call]
  · rw [SearchEntity_world]
    simp [DataSource.call]
  · rw [GetEntityList_world, lastFind_after_call]
    simp [pageNumber, pageLimit, wrapInt]
  · rw [GetEntityList_world, lastFind_after_call]
    simp [pageNumber, pageLimit, wrapInt]
  · rw [SearchEntity_world, lastFind_after_call]
    simp [pageNumber, pageLimit, wrapInt]

/-- C11, at page 3 with count 25: the product fits, and the `Offset` is 50. -/
theorem C11_paging_query_witness :
    ∃ q1 q2, lastFind (GetEntityList (fun e => e.isSome) { db := sampleSource true }
          { Page := 3, Count := 25 } emptyWorld).2 = some q1 ∧
      lastFind (SearchEntity (fun e => e.isSome) { db := sampleSource true }
          { Where := "name = ?", Args := [GoValue.str "a"],
            Paging := { Page := 3, Count := 25 } } emptyWorld).2 = some q2 ∧
      q1.Limit = 25 ∧ q2.Limit = 25 ∧ q1.Offset = 50 ∧ q2.Offset = 50 := by
  obtain ⟨⟨q1, q2, h1, h2, h3, h4, -, -, h5⟩, -⟩ :=
    C11_paging_query (fun e => e.isSome) { db := sampleSource true }
      { Page := 3, Count := 25 } "name = ?" [GoValue.str "a"] emptyWorld
  have hfits : (pageNumber { Page := 3, Count := 25 } - 1) *
      pageLimit { Page := 3, Count := 25 } < 9223372036854775808 := by decide
  obtain ⟨h6, h7⟩ := h5 hfits
  refine ⟨q1, q2, h1, h2, ?_, ?_, ?_, ?_⟩
  · rw [h3]; decide
  · rw [h4]; decide
  · rw [h6]; decide
  · rw [h7]; decide

/-- C11 fails as stated: at page `2^62 + 1` with count 2 the product `(p - 1) * Limit` is
`2^63`, and the `Offset` of the query is `-2^63`. -/
theorem C11_paging_query_counterexample :
    lastFind (GetEntityList (fun e => e.isSome) { db := sampleSource true }
        { Page := 4611686018427387905, Count := 2 } emptyWorld).2 =
          some { Offset := -9223372036854775808, Limit := 2 } ∧
      (pageNumber { Page := 4611686018427387905, Count := 2 } - 1) *
          pageLimit { Page := 4611686018427387905, Count := 2 } = 9223372036854775808 ∧
      (-9223372036854775808 : Int) ≠ 9223372036854775808 := by
  refine ⟨?_, by decide, by decide⟩
  rw [GetEntityList_world, lastFind_after_call]
  simp [pageNumber, pageLimit, wrapInt]

/-- C16, as the code has it.  For every paging input the endpoints issue their query
without any test of the paging input, and nothing is truncated: the `Limit` is at least 1,
it is `count` itself when `count > 0` (so it is at most 1000 only when `count` is), and the
`Offset` is not negative whenever the product `(p - 1) * Limit` fits a Go `int`. -/
theorem C16_no_truncation {T : Type} (RaiseAny : Option Error → Bool) (c : Ctx T)
    (paging : PagingInput) (whereClause : String) (args : List GoValue) (w : World T) :
    ∃ q1 q2, lastFind (GetEntityList RaiseAny c paging w).2 = some q1 ∧
      lastFind (SearchEntity RaiseAny c
          { Where := whereClause, Args := args, Paging := paging } w).2 = some q2 ∧
      q1.Limit = q2.Limit ∧ q1.Offset = q2.Offset ∧
      1 ≤ q1.Limit ∧
      (q1.Limit = paging.Count ∨ paging.Count ≤ 0 ∧ q1.Limit = 1000) ∧
      (q1.Limit ≤ 1000 ↔ paging.Count ≤ 1000) ∧
      (0 ≤ q1.Offset ∨ 9223372036854775808 ≤ (pageNumber paging - 1) * pageLimit paging) := by
  refine ⟨{ Offset := wrapInt ((pageNumber paging - 1) * pageLimit paging),
            Limit := pageLimit paging },
    { W := whereClause, Args := args,
      Offset := wrapInt ((pageNumber paging - 1) * pageLimit paging),
      Limit := pageLimit paging }, ?_, ?_, rfl, rfl, ?_, ?_, ?_, ?_⟩
  · rw [GetEntityList_world, lastFind_after_call]
  · rw [SearchEntity_world, lastFind_after_call]
  · exact pageLimit_pos paging
  · show pageLimit paging = paging.Count ∨ paging.Count ≤ 0 ∧ pageLimit paging = 1000
    unfold pageLimit
    split
    · exact Or.inl rfl
    · exact Or.inr ⟨by omega, rfl⟩
  · show pageLimit paging ≤ 1000 ↔ paging.Count ≤ 1000
    unfold pageLimit
    split <;> omega
  · show 0 ≤ wrapInt ((pageNumber paging - 1) * pageLimit paging) ∨ _
    have hnn : 0 ≤ (pageNumber paging - 1) * pageLimit paging := pageOffset_nonneg paging
    by_cases h : (pageNumber paging - 1) * pageLimit paging < 9223372036854775808
    · left
      rw [wrapInt_of_fits _ hnn h]
      exact hnn
    · right
      omega

/-- C16 fails as stated: a count of 5000 gives a `Limit` of 5000, above 1000, and page
`2^62 + 1` with count 2 gives a negative `Offset`. -/
theorem C16_no_truncation_counterexample :
    lastFind (GetEntityList (fun e => e.isSome) { db := sampleSource true }
        { Page := 1, Count := 5000 } emptyWorld).2 = some { Offset := 0, Limit := 5000 } ∧
      lastFind (GetEntityList (fun e => e.isSome) { db := sampleSource true }
        { Page := 4611686018427387905, Count := 2 } emptyWorld).2 =
          some { Offset := -9223372036854775808, Limit := 2 } ∧
      ¬ ((5000 : Int) ≤ 1000) ∧ ¬ ((0 : Int) ≤ -9223372036854775808) := by
  refine ⟨?_, ?_, by decide, by decide⟩
  · rw [GetEntityList_world, lastFind_after_call]
    simp [pageNumber, pageLimit, wrapInt]
  · rw [GetEntityList_world, lastFind_after_call]
    simp [pageNumber, pageLimit, wrapInt]

/-- C12. When the call of `First` by which `Merge` loads the record fails with an error `e`,
`Merge` (both flavours) returns `ResourceNotFound("missing_entity")` in place of `e`; it has
issued the call of `First` and nothing else. -/
theorem C12_merge_replaces_load_error {T : Type} [Inhabited T] (db : DataSource T)
    (id : String) (merger : Option (Ptr → Heap T → Heap T))
    (hook : Option (Ptr → Heap T → Heap T)) (w : World T) (e : Error)
    (herr : (loadResult db id w).err = some e) :
    linkedEntityRepoImpl.Merge (NewLinkedEntityRepo hook db) id merger w =
        (Outcome.returned (none, some (Error.ResourceNotFound "missing_entity")),
          { heap := (loadResult db id w).mem, next := w.next + 1,
            log := w.log ++ [Event.db (loadCall w id) (loadHeap w)] }) ∧
      entityRepoImpl.Merge (NewRepoImpl hook) { db := db } id merger w =
        (Outcome.returned (none, some (Error.ResourceNotFound "missing_entity")),
          { heap := (loadResult db id w).mem, next := w.next + 1,
            log := w.log ++ [Event.db (loadCall w id) (loadHeap w)] }) := by
  have key : _merge db id merger w =
      (Outcome.returned (none, some (Error.ResourceNotFound "missing_entity")),
        { heap := (loadResult db id w).mem, next := w.next + 1,
          log := w.log ++ [Event.db (loadCall w id) (loadHeap w)] }) := by
    have h2 : (db.respond w.log (Function.update w.heap w.next default)
        (DBCall.First (GoValue.ptr (some w.next))
          { W := "id=?", Args := [GoValue.str id] })).err = some e := herr
    simp [_merge, _findById, _firstBy, World.alloc, DataSource.call, h2, loadResult,
      loadCall, loadHeap]
  exact ⟨key, key⟩

/-- C12, at a `DataSource` whose calls fail with the error `connection reset`: `Merge`
returns another error. -/
theorem C12_merge_replaces_load_error_witness :
    (linkedEntityRepoImpl.Merge (NewLinkedEntityRepo none failingSource) "u1"
        (some (fun _ h => h)) emptyWorld =
        (Outcome.returned (none, some (Error.ResourceNotFound "missing_entity")),
          { heap := (loadResult failingSource "u1" emptyWorld).mem,
            next := emptyWorld.next + 1,
            log := emptyWorld.log ++
              [Event.db (loadCall emptyWorld "u1") (loadHeap emptyWorld)] }) ∧
      entityRepoImpl.Merge (NewRepoImpl none) { db := failingSource } "u1"
        (some (fun _ h => h)) emptyWorld =
        (Outcome.returned (none, some (Error.ResourceNotFound "missing_entity")),
          { heap := (loadResult failingSource "u1" emptyWorld).mem,
            next := emptyWorld.next + 1,
            log := emptyWorld.log ++
              [Event.db (loadCall emptyWorld "u1") (loadHeap emptyWorld)] })) ∧
      Error.failure "connection reset" ≠ Error.ResourceNotFound "missing_entity" :=
  ⟨C12_merge_replaces_load_error failingSource "u1" (some (fun _ h => h)) none emptyWorld
    (Error.failure "connection reset") rfl, by decide⟩

/-- The operations other than `Merge` hand the error of their call of the `DataSource` to the
caller as it is (shown for the repository bound to a `DataSource`). -/
theorem repository_errors_propagate {T : Type} [Inhabited T] (r : linkedEntityRepoImpl T)
    (data : Ptr) (all : List Ptr) (id whereClause : String) (args : List GoValue)
    (w : World T) :
    (r.Update data w).1 =
        Outcome.returned (r.db.call (DBCall.Save (GoValue.addr (GoValue.ptr data))) w).1.err ∧
      (r.UpdateAll all w).1 =
        Outcome.returned (r.db.call (DBCall.Save (GoValue.addr (GoValue.slice all))) w).1.err ∧
      (r.Patch id [] w).1 =
        Outcome.returned (r.db.call (DBCall.Patch GoValue.zero id []) w).1.err ∧
      (r.FindBy whereClause args w).1 =
        Outcome.returned
          ((r.db.call (DBCall.Find (GoValue.addr (GoValue.slice []))
            { W := whereClause, Args := args }) w).1.rows,
           (r.db.call (DBCall.Find (GoValue.addr (GoValue.slice []))
            { W := whereClause, Args := args }) w).1.err) ∧
      (r.CountBy whereClause args w).1 =
        Outcome.returned
          ((r.db.call (DBCall.Count GoValue.zero { W := whereClause, Args := args }) w).1.n,
           (r.db.call (DBCall.Count GoValue.zero { W := whereClause, Args := args }) w).1.err) :=
  ⟨rfl, rfl, rfl, rfl, rfl⟩

theorem lookup_isSome_iff {β : Type} (links : List (String × β)) (t : String) :
    (links.lookup t).isSome = true ↔ t ∈ links.map Prod.fst := by
  induction links with
  | nil => simp [List.lookup]
  | cons x xs ih =>
    obtain ⟨k, v⟩ := x
    by_cases h : t = k
    · subst h
      simp [List.lookup]
    · have hb : (t == k) = false := by simpa using h
      simp [List.lookup, hb, ih, h]

theorem lookup_of_mem {β : Type} (f : String → β) (links : List (String × β))
    (hall : ∀ t ds, (t, ds) ∈ links → ds = f t) (t : String)
    (ht : t ∈ links.map Prod.fst) : links.lookup t = some (f t) := by
  induction links with
  | nil => simp at ht
  | cons x xs ih =>
    obtain ⟨k, v⟩ := x
    by_cases h : t = k
    · subst h
      have hv : v = f t := hall t v (List.mem_cons_self _ _)
      simp [List.lookup, hv]
    · have hb : (t == k) = false := by simpa using h
      have ht2 : t ∈ xs.map Prod.fst := by
        simp only [List.map_cons, List.mem_cons] at ht
        rcases ht with h1 | h1
        · exact absurd h1 h
        · exact h1
      simp only [List.lookup, hb]
      exact ih (fun u ds hu => hall u ds (List.mem_cons_of_mem _ hu)) ht2

theorem linkTenants_spec (url : String) (tenants : List String)
    (links : List (String × GormAdapter))
    (hnodup : (links.map Prod.fst).Nodup)
    (hall : ∀ t ds, (t, ds) ∈ links → ds = NewGormAdapter url t) :
    ((linkTenants url tenants links).map Prod.fst).Nodup ∧
      (∀ t, t ∈ (linkTenants url tenants links).map Prod.fst ↔
        t ∈ links.map Prod.fst ∨ t ∈ tenants) ∧
      ∀ t ds, (t, ds) ∈ linkTenants url tenants links → ds = NewGormAdapter url t := by
  induction tenants generalizing links with
  | nil => exact ⟨hnodup, by simp [linkTenants], hall⟩
  | cons x rest ih =>
    unfold linkTenants
    by_cases hx : (links.lookup x).isSome = true
    · rw [if_pos hx]
      obtain ⟨h1, h2, h3⟩ := ih links hnodup hall
      refine ⟨h1, fun t => ?_, h3⟩
      rw [h2 t]
      have hxm := (lookup_isSome_iff links x).mp hx
      constructor
      · rintro (h | h)
        · exact Or.inl h
        · exact Or.inr (List.mem_cons_of_mem _ h)
      · rintro (h | h)
        · exact Or.inl h
        · rcases List.mem_cons.mp h with rfl | h
          · exact Or.inl hxm
          · exact Or.inr h
    · rw [if_neg hx]
      have hxm : x ∉ links.map Prod.fst := fun h => hx ((lookup_isSome_iff links x).mpr h)
      have hnodup2 : ((links ++ [(x, NewGormAdapter url x)]).map Prod.fst).Nodup := by
        rw [List.map_append, List.nodup_append]
        refine ⟨hnodup, by simp, ?_⟩
        intro a ha hb
        simp at hb
        subst hb
        exact hxm ha
      have hall2 : ∀ t ds, (t, ds) ∈ links ++ [(x, NewGormAdapter url x)] →
          ds = NewGormAdapter url t := by
        intro t ds h
        rcases List.mem_append.mp h with h | h
        · exact hall t ds h
        · simp at h
          obtain ⟨rfl, rfl⟩ := h
          rfl
      obtain ⟨h1, h2, h3⟩ := ih _ hnodup2 hall2
      refine ⟨h1, fun t => ?_, h3⟩
      rw [h2 t]
      simp only [List.map_append, List.mem_append, List.map_cons, List.map_nil,
        List.mem_singleton, List.mem_cons]
      tauto

/-- C13. When a database URL is configured, `setupDatabase` builds a `DataSources` map whose
keys are, each once, the tenants that the loader yields and the default tenant, and the
`DataSource` of every key is the one built for that key (so every such tenant looks up its
own `DataSource`). -/
theorem C13_one_datasource_per_tenant (DefaultTenantId : String) (databaseUrl : String)
    (env : Env GormAdapter) (cfg : Cfg) (hurl : databaseUrl ≠ "") :
    (((setupDatabase DefaultTenantId databaseUrl env cfg).DataSources).map Prod.fst).Nodup ∧
      (∀ t,
        t ∈ ((setupDatabase DefaultTenantId databaseUrl env cfg).DataSources).map Prod.fst ↔
          t ∈ loaderTenants DefaultTenantId env ∨ t = DefaultTenantId) ∧
      (∀ t ds, (t, ds) ∈ (setupDatabase DefaultTenantId databaseUrl env cfg).DataSources →
        ds = NewGormAdapter databaseUrl t) ∧
      (∀ t, t ∈ loaderTenants DefaultTenantId env ∨ t = DefaultTenantId →
        (setupDatabase DefaultTenantId databaseUrl env cfg).DataSources.lookup t =
          some (NewGormAdapter databaseUrl t)) ∧
      ((setupDatabase DefaultTenantId databaseUrl env cfg).DataSources).length =
        (loaderTenants DefaultTenantId env ++ [DefaultTenantId]).dedup.length := by
  have hds : (setupDatabase DefaultTenantId databaseUrl env cfg).DataSources =
      linkTenants databaseUrl (loaderTenants DefaultTenantId env ++ [DefaultTenantId]) [] := by
    unfold setupDatabase loaderTenants
    rw [if_neg hurl]
    cases env.TenantLoader <;> simp [NewFixedTenantLoader, TenantLoader.GetTenant]
  obtain ⟨h1, h2, h3⟩ := linkTenants_spec databaseUrl
    (loaderTenants DefaultTenantId env ++ [DefaultTenantId]) [] (by simp) (by simp)
  have hkeys : ∀ t, t ∈ ((setupDatabase DefaultTenantId databaseUrl env cfg).DataSources).map
      Prod.fst ↔ t ∈ loaderTenants DefaultTenantId env ∨ t = DefaultTenantId := by
    intro t
    rw [hds, h2 t]
    simp
  refine ⟨by rw [hds]; exact h1, hkeys, by rw [hds]; exact h3, ?_, ?_⟩
  · intro t ht
    apply lookup_of_mem (NewGormAdapter databaseUrl)
    · rw [hds]; exact h3
    · exact (hkeys t).mpr ht
  · have hperm : (((setupDatabase DefaultTenantId databaseUrl env cfg).DataSources).map
        Prod.fst).Perm (loaderTenants DefaultTenantId env ++ [DefaultTenantId]).dedup := by
      apply (List.perm_ext_iff_of_nodup (by rw [hds]; exact h1) (List.nodup_dedup _)).mpr
      intro t
      rw [hkeys t, List.mem_dedup]
      simp
    have := hperm.length_eq
    simpa using this

/-- C13, at a loader that yields `acme` twice and `beta`. -/
theorem C13_one_datasource_per_tenant_witness :
    (((setupDatabase "default" "postgres://db" rawEnv { MultiTenant := true }).DataSources).map
        Prod.fst).Nodup ∧
      (∀ t, t ∈ ((setupDatabase "default" "postgres://db" rawEnv
          { MultiTenant := true }).DataSources).map Prod.fst ↔
        t ∈ loaderTenants "default" rawEnv ∨ t = "default") ∧
      (∀ t ds, (t, ds) ∈ (setupDatabase "default" "postgres://db" rawEnv
          { MultiTenant := true }).DataSources → ds = NewGormAdapter "postgres://db" t) ∧
      (∀ t, t ∈ loaderTenants "default" rawEnv ∨ t = "default" →
        (setupDatabase "default" "postgres://db" rawEnv
          { MultiTenant := true }).DataSources.lookup t =
          some (NewGormAdapter "postgres://db" t)) ∧
      ((setupDatabase "default" "postgres://db" rawEnv
          { MultiTenant := true }).DataSources).length =
        (loaderTenants "default" rawEnv ++ ["default"]).dedup.length :=
  C13_one_datasource_per_tenant "default" "postgres://db" rawEnv { MultiTenant := true }
    (by decide)

/-- C14. Provided the helper `h.IsNotEmpty` holds exactly of the strings that are not empty:
when the given text is not empty and ends neither in `_` nor in `-`, `NewId` is that text,
then `_`, then the generated suffix; otherwise it is the text and then the suffix.  For the
text `usr` and a suffix of letters and digits that is not empty the identifier matches
`^usr_[A-Za-z0-9]+$`. -/
theorem C14_new_id_shape (IsNotEmpty : String → Bool) (guid : String) (pfx : String)
    (hne : ∀ s, IsNotEmpty s = true ↔ s ≠ "") :
    (pfx ≠ "" → HasSuffix pfx "_" = false → HasSuffix pfx "-" = false →
        NewId IsNotEmpty guid pfx = pfx ++ "_" ++ guid) ∧
      (pfx = "" ∨ HasSuffix pfx "_" = true ∨ HasSuffix pfx "-" = true →
        NewId IsNotEmpty guid pfx = pfx ++ guid) ∧
      (guid.data ≠ [] → (∀ c ∈ guid.data, c.isAlphanum = true) →
        MatchesUsrPattern (NewId IsNotEmpty guid "usr")) := by
  refine ⟨?_, ?_, ?_⟩
  · intro h1 h2 h3
    have h0 : IsNotEmpty pfx = true := (hne pfx).mpr h1
    simp [NewId, h0, h2, h3]
  · intro h
    rcases h with h | h | h
    · have h0 : IsNotEmpty pfx = false := by
        cases hb : IsNotEmpty pfx with
        | false => rfl
        | true => exact absurd h ((hne pfx).mp hb)
      simp [NewId, h0]
    · simp [NewId, h]
    · simp [NewId, h]
  · intro h1 h2
    have h0 : IsNotEmpty "usr" = true := (hne "usr").mpr (by decide)
    have hu : HasSuffix "usr" "_" = false := by decide
    have hd : HasSuffix "usr" "-" = false := by decide
    refine ⟨guid, ?_, h1, h2⟩
    simp [NewId, h0, hu, hd]

/-- C14, with the test for the empty string as the helper and a generated suffix as `xid`
prints it. -/
theorem C14_new_id_shape_witness :
    ("usr" ≠ "" → HasSuffix "usr" "_" = false → HasSuffix "usr" "-" = false →
        NewId (fun s => s != "") "9m4e2mr0ui3e8a215n4g" "usr" =
          "usr" ++ "_" ++ "9m4e2mr0ui3e8a215n4g") ∧
      ("usr" = "" ∨ HasSuffix "usr" "_" = true ∨ HasSuffix "usr" "-" = true →
        NewId (fun s => s != "") "9m4e2mr0ui3e8a215n4g" "usr" =
          "usr" ++ "9m4e2mr0ui3e8a215n4g") ∧
      ("9m4e2mr0ui3e8a215n4g".data ≠ [] →
        (∀ c ∈ "9m4e2mr0ui3e8a215n4g".data, c.isAlphanum = true) →
        MatchesUsrPattern (NewId (fun s => s != "") "9m4e2mr0ui3e8a215n4g" "usr")) :=
  C14_new_id_shape (fun s => s != "") "9m4e2mr0ui3e8a215n4g" "usr" (by intro s; simp)

/-- C15. Let `C` be a set of features each of which lists a feature of `C` first in its
`DependsOn` (a cycle through first dependencies), none of them configured yet.  Then
`configureFeature` returns for no feature of `C`, whatever the depth allowed: the recursion
is not cut off by any test, and no error is reported. -/
theorem C15_cycle_never_returns {DS : Type} (DefaultTenantId : String)
    (G : FeatureRef → Feature) (app : App DS) (C : FeatureRef → Prop) (s : BootState DS)
    (hcycle : ∀ j, C j → ∃ k rest, C k ∧ (G j).DependsOn = k :: rest)
    (hfresh : ∀ j, C j → (G j).Name ∉ s.bootstrap) :
    ∀ fuel j, C j → configureFeature DefaultTenantId G app fuel j s = none := by
  intro fuel
  induction fuel with
  | zero => intro j _; rfl
  | succ n ih =>
    intro j hj
    obtain ⟨k, rest, hk, hdeps⟩ := hcycle j hj
    unfold configureFeature
    rw [if_neg (hfresh j hj), hdeps]
    simp [forEach, ih k hk]

/-- C15, at two features that depend on each other: bootstrapping `A` returns for no depth
allowed. -/
theorem C15_cycle_never_returns_witness :
    (∀ fuel, configureFeature "default" twoCycle (builtApp "default" false []) fuel 0
        { bootstrap := [], trace := [] } = none) ∧
      configureFeature "default" twoCycle (builtApp "default" false []) 1000 0
        { bootstrap := [], trace := [] } = none :=
  have h := C15_cycle_never_returns "default" twoCycle (builtApp "default" false [])
    (fun j => j = 0 ∨ j = 1) { bootstrap := [], trace := [] }
    (fun j hj => by
      rcases hj with rfl | rfl
      · exact ⟨1, [], Or.inr rfl, rfl⟩
      · exact ⟨0, [], Or.inl rfl, rfl⟩)
    (fun j _ => by simp)
  ⟨fun fuel => h fuel 0 (Or.inl rfl), h 1000 0 (Or.inl rfl)⟩

end Micro
